import Mathlib

/-!
Verification of the `evasive-button` controller (`makeEvasive` in the
repository's single source module) against its natural-language
specification.

The source is TypeScript operating on IEEE doubles and the DOM.  The
shallow embedding here uses exact rational arithmetic (`ℚ`) for all
numeric state, and models the DOM/event-loop effects that the spec talks
about (flags, pending animation-frame and timer handles, element content,
callback invocations) as explicit fields of a state record, driven by an
event-step function.

Two systematic encodings are used throughout, each noted where it occurs:

* `Math.sqrt` comparisons.  The source only ever compares a square root
  against a bound (`dist < r`, `speed < 0.1`, `dist > 1`, ...).  Since
  `Real.sqrt` is strictly monotone on nonnegatives, `√a < b` (for `a ≥ 0`)
  is encoded as `0 < b ∧ a < b * b`, and `√a > b` as `b < 0 ∨ b * b < a`;
  the bridge lemmas `sqrt_lt_iff_enc` and `lt_sqrt_iff_enc` below prove
  these encodings correct against `Real.sqrt`.

* Transcendental values.  `Math.cos`/`Math.sin` of the fixed escape
  angles, and square roots that feed into further arithmetic (the
  direction normalisation length, the jump-step distance), are
  irrational.  They enter the embedding as explicit parameters (`trig`,
  `sq`, `d`), constrained by hypotheses (for example `d * d = dx^2 + dy^2`)
  exactly where a claim depends on their value.  Every theorem below holds
  for all values of these parameters, in particular for the true
  transcendental ones.
-/

namespace Evasive

/-- Physics constants from the source (`GRAVITY`, `JUMP_VELOCITY`,
`HORIZONTAL_LERP`, `SPRING_TENSION`, `SPRING_FRICTION`). -/
def GRAVITY : ℚ := 3200

/-- Initial vertical jump velocity. -/
def JUMP_VELOCITY : ℚ := 850

/-- Horizontal easing factor (source value 0.18). -/
def HORIZONTAL_LERP : ℚ := 18 / 100

/-- Spring tension constant. -/
def SPRING_TENSION : ℚ := 120

/-- Spring friction constant. -/
def SPRING_FRICTION : ℚ := 28

/-- Source helper `clamp(val, min, max) = Math.min(Math.max(val, min), max)`. -/
def clamp (val lo hi : ℚ) : ℚ := min (max val lo) hi

/-- Squared distance.  The source's `distance(x1,y1,x2,y2)` is
`Math.sqrt((x2-x1)**2 + (y2-y1)**2)`; the embedding keeps the radicand and
compares squares (see the head comment). -/
def distSq (x1 y1 x2 y2 : ℚ) : ℚ := (x2 - x1) ^ 2 + (y2 - y1) ^ 2

/-- The normalisation length `Math.sqrt(dx*dx + dy*dy) || 1` from
`escapeFrom`.  `sq` parameterises the (generally irrational) square root;
`0` is the only falsy value `Math.sqrt` can produce on a nonnegative
radicand, so `|| 1` replaces exactly `sq = 0` by `1`. -/
def normLen (sq : ℚ) : ℚ := if sq = 0 then 1 else sq

/-- The normalised escape direction `(dx/len, dy/len)` from `escapeFrom`. -/
def normDir (dx dy sq : ℚ) : ℚ × ℚ := (dx / normLen sq, dy / normLen sq)

/-- One candidate destination inside `escapeFrom`'s angle loop: the unit
direction `(ux, uy)` rotated by the angle whose cosine/sine pair is `cs`,
scaled by `escapeDistance` `e`, added to the current offset and clamped to
the movement envelope.  Mirrors
`rdx = dx*cos - dy*sin; rdy = dx*sin + dy*cos;
 newX = clamp(currentX + rdx*e, -maxX, maxX);
 newY = clamp(currentY + rdy*e, minY, maxY)`. -/
def candidateAt (cx cy ux uy e maxX minY maxY : ℚ) (cs : ℚ × ℚ) : ℚ × ℚ :=
  let rdx := ux * cs.1 - uy * cs.2
  let rdy := ux * cs.2 + uy * cs.1
  (clamp (cx + rdx * e) (-maxX) maxX, clamp (cy + rdy * e) minY maxY)

/-- One step of the best-candidate selection loop.  The source compares
`moveDist > bestDistance` on square roots of squared distances; both sides
are nonnegative, so the comparison is performed on the squares (strictly
equivalent).  An update happens only on strict improvement, so ties keep
the earlier candidate (first maximal wins), as in the source. -/
def betterOf (cx cy : ℚ) (best : (ℚ × ℚ) × ℚ) (c : ℚ × ℚ) : (ℚ × ℚ) × ℚ :=
  if best.2 < distSq cx cy c.1 c.2 then (c, distSq cx cy c.1 c.2) else best

/-- The selection loop of `escapeFrom`: fold over the candidate list in
angle order, starting from `bestX = currentX, bestY = currentY,
bestDistance = 0`. -/
def pickBest (cx cy : ℚ) (cands : List (ℚ × ℚ)) : (ℚ × ℚ) × ℚ :=
  cands.foldl (betterOf cx cy) ((cx, cy), 0)

/-- The movement envelope of `escapeFrom`:
`-maxX ≤ x ≤ maxX`, `minY ≤ y ≤ maxY`. -/
def inEnvelope (maxX minY maxY : ℚ) (p : ℚ × ℚ) : Prop :=
  -maxX ≤ p.1 ∧ p.1 ≤ maxX ∧ minY ≤ p.2 ∧ p.2 ≤ maxY

lemma clamp_le (val lo hi : ℚ) (_h : lo ≤ hi) : clamp val lo hi ≤ hi :=
  min_le_right _ _

lemma le_clamp (val lo hi : ℚ) (h : lo ≤ hi) : lo ≤ clamp val lo hi :=
  le_min (le_trans (le_max_right _ _) (le_refl _)) h

lemma distSq_nonneg (x1 y1 x2 y2 : ℚ) : 0 ≤ distSq x1 y1 x2 y2 := by
  unfold distSq; positivity

lemma distSq_eq_zero_iff (x1 y1 x2 y2 : ℚ) :
    distSq x1 y1 x2 y2 = 0 ↔ x2 = x1 ∧ y2 = y1 := by
  unfold distSq
  constructor
  · intro h
    have h1 : (x2 - x1) ^ 2 = 0 ∧ (y2 - y1) ^ 2 = 0 := by
      constructor <;> nlinarith [sq_nonneg (x2 - x1), sq_nonneg (y2 - y1)]
    constructor
    · have := pow_eq_zero_iff (n := 2) (by norm_num) |>.mp h1.1
      linarith
    · have := pow_eq_zero_iff (n := 2) (by norm_num) |>.mp h1.2
      linarith
  · rintro ⟨h1, h2⟩
    subst h1; subst h2; ring

/-- The fold's accumulator always records the squared distance of its own
first component from the start point. -/
lemma foldl_betterOf_dist (cx cy : ℚ) (cs : List (ℚ × ℚ)) :
    ∀ b : (ℚ × ℚ) × ℚ, distSq cx cy b.1.1 b.1.2 = b.2 →
      distSq cx cy (cs.foldl (betterOf cx cy) b).1.1
          (cs.foldl (betterOf cx cy) b).1.2 =
        (cs.foldl (betterOf cx cy) b).2 := by
  induction cs with
  | nil => intro b hb; simpa using hb
  | cons c rest ih =>
      intro b hb
      simp only [List.foldl_cons]
      apply ih
      unfold betterOf
      split
      · simp
      · exact hb

lemma betterOf_fst (cx cy : ℚ) (b : (ℚ × ℚ) × ℚ) (c : ℚ × ℚ) :
    (betterOf cx cy b c).1 = b.1 ∨ (betterOf cx cy b c).1 = c := by
  unfold betterOf
  split
  · right; rfl
  · left; rfl

/-- The fold's result is the start accumulator or one of the candidates. -/
lemma foldl_betterOf_mem (cx cy : ℚ) (cs : List (ℚ × ℚ)) :
    ∀ b : (ℚ × ℚ) × ℚ,
      (cs.foldl (betterOf cx cy) b).1 = b.1 ∨
        (cs.foldl (betterOf cx cy) b).1 ∈ cs := by
  induction cs with
  | nil => intro b; simp
  | cons c rest ih =>
      intro b
      simp only [List.foldl_cons]
      rcases ih (betterOf cx cy b c) with h | h
      · rcases betterOf_fst cx cy b c with h2 | h2
        · left; rw [h, h2]
        · right; rw [h, h2]; exact List.mem_cons_self _ _
      · right; exact List.mem_cons_of_mem _ h

/-- The best squared distance never decreases along the fold. -/
lemma foldl_betterOf_snd_mono (cx cy : ℚ) (cs : List (ℚ × ℚ)) :
    ∀ b : (ℚ × ℚ) × ℚ, b.2 ≤ (cs.foldl (betterOf cx cy) b).2 := by
  induction cs with
  | nil => intro b; simp
  | cons c rest ih =>
      intro b
      simp only [List.foldl_cons]
      refine le_trans ?_ (ih (betterOf cx cy b c))
      unfold betterOf
      split
      · exact le_of_lt (by assumption)
      · exact le_refl _

/-- Every candidate's squared displacement is at most the final best. -/
lemma foldl_betterOf_snd_ge (cx cy : ℚ) (cs : List (ℚ × ℚ)) :
    ∀ b : (ℚ × ℚ) × ℚ, ∀ c ∈ cs,
      distSq cx cy c.1 c.2 ≤ (cs.foldl (betterOf cx cy) b).2 := by
  induction cs with
  | nil => intro b c hc; simp at hc
  | cons c0 rest ih =>
      intro b c hc
      simp only [List.foldl_cons]
      rcases List.mem_cons.mp hc with h | h
      · subst h
        refine le_trans ?_ (foldl_betterOf_snd_mono cx cy rest (betterOf cx cy b c))
        unfold betterOf
        split
        · exact le_refl _
        · linarith [not_lt.mp (by assumption : ¬ b.2 < distSq cx cy c.1 c.2)]
      · exact ih _ c h

/-- If every candidate lies in the envelope and the list is nonempty, the
selected destination lies in the envelope (core of claim C2).  If the
selection keeps the start point, every candidate has zero displacement,
hence equals the start point, which therefore lies in the envelope. -/
lemma pickBest_in_envelope (cx cy maxX minY maxY : ℚ) (cands : List (ℚ × ℚ))
    (hne : cands ≠ [])
    (henv : ∀ c ∈ cands, inEnvelope maxX minY maxY c) :
    inEnvelope maxX minY maxY (pickBest cx cy cands).1 := by
  rcases foldl_betterOf_mem cx cy cands (((cx, cy)), 0) with h | h
  · -- the fold returned the start point; show it is itself in the envelope
    rw [pickBest, h]
    obtain ⟨c0, hc0⟩ := List.exists_mem_of_ne_nil cands hne
    have hd : distSq cx cy c0.1 c0.2 ≤ (pickBest cx cy cands).2 :=
      foldl_betterOf_snd_ge cx cy cands _ c0 hc0
    have hdist : distSq cx cy (pickBest cx cy cands).1.1 (pickBest cx cy cands).1.2 =
        (pickBest cx cy cands).2 :=
      foldl_betterOf_dist cx cy cands _ (by simp [distSq])
    have hzero : (pickBest cx cy cands).2 = 0 := by
      have h2 := hdist
      rw [show (pickBest cx cy cands).1 = ((cx, cy) : ℚ × ℚ) from h] at h2
      simpa [distSq] using h2.symm
    have : distSq cx cy c0.1 c0.2 = 0 :=
      le_antisymm (hzero ▸ hd) (distSq_nonneg _ _ _ _)
    obtain ⟨h1, h2⟩ := (distSq_eq_zero_iff cx cy c0.1 c0.2).mp this
    have hc0env := henv c0 hc0
    simpa [inEnvelope, ← h1, ← h2] using hc0env
  · exact henv _ h

/-- Correctness of the square-root comparison encoding used throughout:
for a nonnegative radicand `a`, the source's `Math.sqrt(a) < b` holds
exactly when `0 < b ∧ a < b * b`. -/
lemma sqrt_lt_iff_enc (a b : ℚ) (_ha : 0 ≤ a) :
    Real.sqrt (a : ℝ) < (b : ℝ) ↔ (0 < b ∧ a < b * b) := by
  constructor
  · intro h
    have hb : (0 : ℝ) < (b : ℝ) := lt_of_le_of_lt (Real.sqrt_nonneg _) h
    have hab : (a : ℝ) < (b : ℝ) ^ 2 := (Real.sqrt_lt' hb).mp h
    constructor
    · exact_mod_cast hb
    · have : (a : ℝ) < (b : ℝ) * (b : ℝ) := by nlinarith
      exact_mod_cast this
  · rintro ⟨hb, hab⟩
    have hb' : (0 : ℝ) < (b : ℝ) := by exact_mod_cast hb
    refine (Real.sqrt_lt' hb').mpr ?_
    have : (a : ℝ) < (b : ℝ) * (b : ℝ) := by exact_mod_cast hab
    nlinarith

/-- Correctness of the reverse encoding: for a nonnegative radicand `a`,
the source's `Math.sqrt(a) > b` holds exactly when `b < 0 ∨ b * b < a`. -/
lemma lt_sqrt_iff_enc (a b : ℚ) (_ha : 0 ≤ a) :
    (b : ℝ) < Real.sqrt (a : ℝ) ↔ (b < 0 ∨ b * b < a) := by
  rcases lt_or_le b 0 with hb | hb
  · constructor
    · intro _; exact Or.inl hb
    · intro _
      exact lt_of_lt_of_le (by exact_mod_cast hb) (Real.sqrt_nonneg _)
  · have hb' : (0 : ℝ) ≤ (b : ℝ) := by exact_mod_cast hb
    rw [show ((b : ℝ) < Real.sqrt (a : ℝ)) ↔ ((b : ℝ) ^ 2 < (a : ℝ)) from
      Real.lt_sqrt hb']
    constructor
    · intro h
      right
      have : (b : ℝ) * (b : ℝ) < (a : ℝ) := by nlinarith
      exact_mod_cast this
    · rintro (h | h)
      · exact absurd h (not_lt.mpr hb)
      · have : (b : ℝ) * (b : ℝ) < (a : ℝ) := by exact_mod_cast h
        nlinarith

/-- Host-environment values read by the controller: the configuration
options resolved in `makeEvasive` plus the geometry the DOM provides
(viewport size, element width, and the anchor point captured at attach
time).  The viewport/element geometry is treated as constant across a
run. -/
structure Cfg where
  detectionRadius : ℚ
  escapeDistance : ℚ
  edgePadding : ℚ
  vw : ℚ
  vh : ℚ
  btnW : ℚ
  startX : ℚ
  startY : ℚ
deriving DecidableEq

/-- The complete controller state: the `State` record of the source plus
the closure-level mutable handles (`animationFrame`, `jumpAnimFrame`,
`returnTimeout`, `tauntTimeout`), the rendered wrapper position
(`styleX`, `styleY`, which `getButtonCenter` reads back via
`getBoundingClientRect`), the anonymous timers scheduled by `handleClick`
(counts, since they are never stored or cancelled), the element content
(`contentCaught` - whether `innerHTML` is currently `caughtText`), whether
the teardown ran (`destroyed`, i.e. listeners removed), and callback
invocation counts.  For each stored handle, `...Var` models the closure
variable being non-null and `...Pending` models a continuation actually
scheduled; the source nulls the variable in some places and merely cancels
in others, and `returnToCenter` tests the variable itself. -/
structure S where
  currentX : ℚ
  currentY : ℚ
  velocityX : ℚ
  velocityY : ℚ
  targetX : ℚ
  targetY : ℚ
  isReturning : Bool
  isJumping : Bool
  isCaught : Bool
  z : ℚ
  zVelocity : ℚ
  jumpStartX : ℚ
  jumpStartY : ℚ
  jumpTargetX : ℚ
  jumpTargetY : ℚ
  lastJumpTime : ℚ
  styleX : ℚ
  styleY : ℚ
  animFrameVar : Bool
  animFramePending : Bool
  jumpFrameVar : Bool
  jumpFramePending : Bool
  returnTimeoutVar : Bool
  returnTimeoutPending : Bool
  tauntTimeoutVar : Bool
  tauntTimeoutPending : Bool
  anonReturn600 : ℕ
  anonRestore : ℕ
  contentCaught : Bool
  destroyed : Bool
  onEscapeCount : ℕ
  onCatchCount : ℕ
deriving DecidableEq

/-- The state right after `makeEvasive` attaches: the `state` literal of
the source (all offsets and flags zeroed) with the wrapper styled at the
anchor point and no handles pending. -/
def initState (cfg : Cfg) : S :=
  { currentX := 0, currentY := 0, velocityX := 0, velocityY := 0,
    targetX := 0, targetY := 0,
    isReturning := false, isJumping := false, isCaught := false,
    z := 0, zVelocity := 0,
    jumpStartX := 0, jumpStartY := 0, jumpTargetX := 0, jumpTargetY := 0,
    lastJumpTime := 0,
    styleX := cfg.startX, styleY := cfg.startY,
    animFrameVar := false, animFramePending := false,
    jumpFrameVar := false, jumpFramePending := false,
    returnTimeoutVar := false, returnTimeoutPending := false,
    tauntTimeoutVar := false, tauntTimeoutPending := false,
    anonReturn600 := 0, anonRestore := 0,
    contentCaught := false, destroyed := false,
    onEscapeCount := 0, onCatchCount := 0 }

/-- Source `getButtonCenter`: the element's rendered center.  The wrapper is
`position: fixed` with `translate(-50%, -50%)`, so the center equals the
wrapper's current `(left, top)` style. -/
def getButtonCenter (s : S) : ℚ × ℚ := (s.styleX, s.styleY)

/-- Source `startJump(destX, destY)`: record the jump, reset the vertical physics
and schedule the jump animation frame (`requestAnimationFrame` after a
cancel-if-present). -/
def startJump (destX destY : ℚ) (s : S) : S :=
  { s with jumpStartX := s.currentX, jumpStartY := s.currentY,
           jumpTargetX := destX, jumpTargetY := destY,
           z := 0, zVelocity := JUMP_VELOCITY, lastJumpTime := 0,
           jumpFramePending := true, jumpFrameVar := true }

/-- Source `showTaunt` when the 600ms debounce passes: set the bubble text (taunt
queue modelled separately below) and (re)schedule the hide timer.  Only the
handle effect is relevant here. -/
def showTaunt (s : S) : S :=
  { s with tauntTimeoutPending := true, tauntTimeoutVar := true }

/-- The destination computation inside `escapeFrom`'s triggered branch:
envelope bounds from the viewport, direction from the element center
`(bcx, bcy)` away from the pointer normalised by `normLen sq`
(`sq` parameterises `Math.sqrt(dx*dx+dy*dy)`), ten rotated candidates
(`trig` carries the `(cos, sin)` pairs of the source's fixed angle list
`[0, 0.3, -0.3, 0.6, -0.6, 0.9, -0.9, 1.2, -1.2, π]`), clamped, and the
first displacement-maximising candidate selected. -/
def escapeDest (cfg : Cfg) (bcx bcy mx my sq cx cy : ℚ)
    (trig : List (ℚ × ℚ)) : ℚ × ℚ :=
  let maxX := cfg.vw / 2 - cfg.btnW / 2 - cfg.edgePadding
  let maxY := cfg.vh * (25 / 100)
  let minY := -cfg.vh * (55 / 100)
  let u := normDir (bcx - mx) (bcy - my) sq
  (pickBest cx cy
    (trig.map (candidateAt cx cy u.1 u.2 cfg.escapeDistance maxX minY maxY))).1

/-- Source `escapeFrom(mouseX, mouseY)`: no-op while caught or jumping; otherwise,
when the pointer is strictly inside the detection radius (comparison
encoded on squares, see `sqrt_lt_iff_enc`), stop any return (flag, spring
frame and return timer), mark the jump, pick the destination, start the
jump, invoke `onEscape`, and possibly show a taunt (`tauntOk` abstracts
`Math.random() < tauntProbability` together with the taunt debounce). -/
def escapeFrom (cfg : Cfg) (mx my sq : ℚ) (trig : List (ℚ × ℚ))
    (tauntOk : Bool) (s : S) : S :=
  if s.isCaught || s.isJumping then s
  else
    let c := getButtonCenter s
    if 0 < cfg.detectionRadius ∧
        distSq mx my c.1 c.2 < cfg.detectionRadius * cfg.detectionRadius then
      let s1 : S := { s with
        isReturning := false,
        animFrameVar := false, animFramePending := false,
        returnTimeoutVar := false, returnTimeoutPending := false,
        isJumping := true }
      let dest := escapeDest cfg c.1 c.2 mx my sq s1.currentX s1.currentY trig
      let s2 := startJump dest.1 dest.2 s1
      let s3 : S := { s2 with onEscapeCount := s2.onEscapeCount + 1 }
      if tauntOk then showTaunt s3 else s3
    else s

/-- Source `returnToCenter`: aim the spring at the anchor and start the spring
loop unless an animation-frame handle is already stored (the source tests
the variable, not pendingness). -/
def returnToCenter (s : S) : S :=
  let s1 : S := { s with targetX := 0, targetY := 0, isReturning := true }
  if s1.animFrameVar then s1
  else { s1 with animFrameVar := true, animFramePending := true }

/-- The planar position/velocity state the spring physics acts on. -/
structure SpringV where
  x : ℚ
  y : ℚ
  vx : ℚ
  vy : ℚ
deriving DecidableEq

/-- The numeric core of one `springAnimate` frame: per axis, velocity
gains displacement times tension over 1000, is damped by
`1 - friction/100`, and the new velocity is added to the position. -/
def springCore (tx ty : ℚ) (p : SpringV) : SpringV :=
  let dx := tx - p.x
  let dy := ty - p.y
  let vx := (p.vx + dx * SPRING_TENSION / 1000) * (1 - SPRING_FRICTION / 100)
  let vy := (p.vy + dy * SPRING_TENSION / 1000) * (1 - SPRING_FRICTION / 100)
  ⟨p.x + vx, p.y + vy, vx, vy⟩

/-- Iterated spring frames toward a fixed target. -/
def springIter (tx ty : ℚ) : ℕ → SpringV → SpringV
  | 0, p => p
  | n + 1, p => springIter tx ty n (springCore tx ty p)

/-- The termination test the frame starting from `p` evaluates: the speed
after the update is below 0.1 and the distance to target before the
update is below 0.5 (both comparisons on squares, see
`sqrt_lt_iff_enc`). -/
def springDone (tx ty : ℚ) (p : SpringV) : Prop :=
  (springCore tx ty p).vx * (springCore tx ty p).vx +
      (springCore tx ty p).vy * (springCore tx ty p).vy <
    (1 / 10) * (1 / 10) ∧
  (tx - p.x) * (tx - p.x) + (ty - p.y) * (ty - p.y) < (1 / 2) * (1 / 2)

/-- One `springAnimate` frame on the full controller state: run the
numeric core, write the new position to the wrapper style, and if
returning with the termination test satisfied, snap exactly to the target
with zero velocity, stop returning and drop the frame handle; otherwise
reschedule while returning (if not returning, neither reschedule nor null
the stale handle variable, as in the source). -/
def springAnimate (cfg : Cfg) (s : S) : S :=
  let dx := s.targetX - s.currentX
  let dy := s.targetY - s.currentY
  let p := springCore s.targetX s.targetY
    ⟨s.currentX, s.currentY, s.velocityX, s.velocityY⟩
  let s1 : S := { s with velocityX := p.vx, velocityY := p.vy,
                         currentX := p.x, currentY := p.y,
                         styleX := cfg.startX + p.x, styleY := cfg.startY + p.y }
  if s1.isReturning ∧ p.vx * p.vx + p.vy * p.vy < (1 / 10) * (1 / 10) ∧
      dx * dx + dy * dy < (1 / 2) * (1 / 2) then
    { s1 with currentX := s1.targetX, currentY := s1.targetY,
              velocityX := 0, velocityY := 0, isReturning := false,
              styleX := cfg.startX + s1.targetX, styleY := cfg.startY + s1.targetY,
              animFrameVar := false }
  else if s1.isReturning then
    { s1 with animFrameVar := true, animFramePending := true }
  else s1

/-- The horizontal easing of `jumpAnimate`: with `d` parameterising
`Math.sqrt(dx*dx + dy*dy)`, move by
`moveAmount = Math.max(dist * 0.18, Math.min(15, dist))` along the
direction to the jump target while more than 1 unit away, else snap. -/
def jumpHoriz (cx cy tx ty d : ℚ) : ℚ × ℚ :=
  let dx := tx - cx
  let dy := ty - cy
  let moveAmount := max (d * HORIZONTAL_LERP) (min 15 d)
  if 1 < d then (cx + dx * (moveAmount / d), cy + dy * (moveAmount / d))
  else (tx, ty)

/-- One `jumpAnimate` frame at timestamp `t`: frame delta capped at 50ms
(with the `lastJumpTime = 0` sentinel meaning "first frame"), gravity
integration of `z`, horizontal easing (`d` parameterises the square root
in the horizontal distance), visual placement with the `z * 0.15` arc
offset; on touchdown (`z ≤ 0` with downward velocity) snap to the jump
target, clear the jump, and schedule the 450ms return timer after a
cancel-if-present.  The landing's 200ms shadow/squash timers touch only
CSS and are not modelled. -/
def jumpAnimate (cfg : Cfg) (t d : ℚ) (s : S) : S :=
  let ljt := if s.lastJumpTime = 0 then t else s.lastJumpTime
  let delta := min ((t - ljt) / 1000) (5 / 100)
  let zV := s.zVelocity - GRAVITY * delta
  let z := s.z + zV * delta
  let p := jumpHoriz s.currentX s.currentY s.jumpTargetX s.jumpTargetY d
  let s1 : S := { s with lastJumpTime := t, zVelocity := zV, z := z,
                         currentX := p.1, currentY := p.2,
                         styleX := cfg.startX + p.1,
                         styleY := cfg.startY + p.2 - z * (15 / 100) }
  if z ≤ 0 ∧ zV < 0 then
    { s1 with z := 0, zVelocity := 0,
              currentX := s1.jumpTargetX, currentY := s1.jumpTargetY,
              targetX := s1.jumpTargetX, targetY := s1.jumpTargetY,
              styleX := cfg.startX + s1.jumpTargetX,
              styleY := cfg.startY + s1.jumpTargetY,
              isJumping := false, lastJumpTime := 0,
              jumpFrameVar := false,
              returnTimeoutPending := true, returnTimeoutVar := true }
  else { s1 with jumpFramePending := true, jumpFrameVar := true }

/-- Source `handleMouseMove`: run `escapeFrom`, clear any return timer (the
variable is not nulled), and if the pointer is farther than 2.5 detection
radii from the center (encoded on squares, see `lt_sqrt_iff_enc`),
schedule a 400ms return timer. -/
def handleMouseMove (cfg : Cfg) (mx my sq : ℚ) (trig : List (ℚ × ℚ))
    (tauntOk : Bool) (s : S) : S :=
  let s1 := escapeFrom cfg mx my sq trig tauntOk s
  let s2 : S := { s1 with returnTimeoutPending := false }
  let c := getButtonCenter s2
  if cfg.detectionRadius * (25 / 10) < 0 ∨
      cfg.detectionRadius * (25 / 10) * (cfg.detectionRadius * (25 / 10)) <
        distSq mx my c.1 c.2 then
    { s2 with returnTimeoutPending := true, returnTimeoutVar := true }
  else s2

/-- Source `handleMouseLeave`: clear any return timer and schedule a 200ms one. -/
def handleMouseLeave (s : S) : S :=
  { s with returnTimeoutPending := true, returnTimeoutVar := true }

/-- Source `handleClick`: no-op while caught; otherwise set the caught state,
invoke `onCatch`, cancel (and null) the jump frame, spring frame and
return timer, zero the vertical physics, clear the jump flag, swap the
element content to `caughtText`, and schedule two anonymous timers - the
600ms return trigger and the `caughtDuration` restore.  Those two handles
are never stored, so nothing can cancel them. -/
def handleClick (s : S) : S :=
  if s.isCaught then s
  else
    { s with isCaught := true, onCatchCount := s.onCatchCount + 1,
             jumpFrameVar := false, jumpFramePending := false,
             animFrameVar := false, animFramePending := false,
             returnTimeoutVar := false, returnTimeoutPending := false,
             z := 0, zVelocity := 0, isJumping := false,
             contentCaught := true,
             anonReturn600 := s.anonReturn600 + 1,
             anonRestore := s.anonRestore + 1 }

/-- The returned `destroy` teardown: remove the listeners, cancel the four
stored handles if their variables are non-null, and restore the original
DOM and content.  The anonymous `handleClick` timers are untouched - the
source holds no reference to them.  `wrapper.replaceWith(element)` on an
already-detached wrapper is a DOM no-op, so a second call is safe. -/
def destroyFn (s : S) : S :=
  { s with destroyed := true,
           animFramePending := if s.animFrameVar then false else s.animFramePending,
           jumpFramePending := if s.jumpFrameVar then false else s.jumpFramePending,
           returnTimeoutPending := if s.returnTimeoutVar then false
             else s.returnTimeoutPending,
           tauntTimeoutPending := if s.tauntTimeoutVar then false
             else s.tauntTimeoutPending,
           contentCaught := false }

/-- The observable events of a run: pointer moves (with the square-root
and trigonometric inputs as parameters, see the head comment), pointer
leave, click, the two animation-frame callbacks, the stored timers firing
(return timer, taunt hide), the two anonymous `handleClick` timers firing
(600ms return and `caughtDuration` restore), and teardown. -/
inductive Ev where
  | mouseMove (mx my sq : ℚ) (trig : List (ℚ × ℚ)) (tauntOk : Bool)
  | mouseLeave
  | click
  | springFrame
  | jumpFrame (t d : ℚ)
  | fireReturn
  | fireTauntHide
  | fireAnonReturn
  | fireAnonRestore
  | destroy

/-- Event dispatch.  Listener events are dropped once detached; a frame or
timer callback can only fire while its continuation is pending (firing
consumes the pending continuation first, as the event loop does); the
anonymous timers fire whenever one is outstanding - detached or not. -/
def step (cfg : Cfg) (s : S) : Ev → S
  | .mouseMove mx my sq trig tauntOk =>
      if s.destroyed then s else handleMouseMove cfg mx my sq trig tauntOk s
  | .mouseLeave => if s.destroyed then s else handleMouseLeave s
  | .click => if s.destroyed then s else handleClick s
  | .springFrame =>
      if s.animFramePending then springAnimate cfg { s with animFramePending := false }
      else s
  | .jumpFrame t d =>
      if s.jumpFramePending then jumpAnimate cfg t d { s with jumpFramePending := false }
      else s
  | .fireReturn =>
      if s.returnTimeoutPending then
        returnToCenter { s with returnTimeoutPending := false }
      else s
  | .fireTauntHide =>
      if s.tauntTimeoutPending then { s with tauntTimeoutPending := false } else s
  | .fireAnonReturn =>
      if 0 < s.anonReturn600 then
        returnToCenter { s with anonReturn600 := s.anonReturn600 - 1 }
      else s
  | .fireAnonRestore =>
      if 0 < s.anonRestore then
        { s with anonRestore := s.anonRestore - 1,
                 contentCaught := false, isCaught := false }
      else s
  | .destroy => destroyFn s

/-- Run a sequence of events from a state. -/
def run (cfg : Cfg) (s : S) (evs : List Ev) : S :=
  evs.foldl (step cfg) s

/-- The destructuring swap `[q[i], q[j]] = [q[j], q[i]]` used by the
shuffle and by `getNextTaunt`.  In the source the indices are always in
range (`Math.random()` lies in `[0, 1)` and the loop bounds keep `j ≤ i <
length`); the out-of-range guard only totalises the embedding and is never
taken on those inputs. -/
def swapIdx (l : List ℕ) (i j : ℕ) : List ℕ :=
  if h : i < l.length ∧ j < l.length then
    (l.set i (l.get ⟨j, h.2⟩)).set j (l.get ⟨i, h.1⟩)
  else l

/-- The Fisher-Yates loop of `shuffleTauntQueue`, with the random draws
supplied as a tape of rationals (one per loop iteration, standing for the
successive `Math.random()` values): for `i` from `length - 1` down to `1`,
swap index `i` with `j = Math.floor(r * (i + 1))`. -/
def shuffleAux : List ℕ → List ℚ → ℕ → List ℕ
  | q, _, 0 => q
  | q, [], _ + 1 => q
  | q, r :: rest, i + 1 =>
      shuffleAux (swapIdx q (i + 1) (Int.toNat (Int.floor (r * ((i : ℚ) + 2))))) rest i

/-- Source `shuffleTauntQueue` on an explicit queue. -/
def shuffleTauntQueue (q : List ℕ) (tape : List ℚ) : List ℕ :=
  shuffleAux q tape (q.length - 1)

/-- The taunt-queue state: the remaining shuffled indices and
`lastTauntIndex` (an integer, `-1` before any taunt was shown). -/
structure TauntS where
  queue : List ℕ
  lastIdx : Int
deriving DecidableEq

/-- The search loop inside `getNextTaunt`
(`for (let i = 1; ...) if (tauntQueue[i] !== lastTauntIndex) ...`):
position of the first entry of a list differing from `last`, if any. -/
def firstDiffIdx (last : Int) : List ℕ → Option ℕ
  | [] => none
  | x :: rest =>
      if ((x : ℕ) : Int) ≠ last then some 0
      else (firstDiffIdx last rest).map (fun k => k + 1)

/-- The first phase of `getNextTaunt`: if the queue is empty, regenerate
`[...Array(n).keys()]` and shuffle it with the supplied random tape. -/
def regenQueue (n : ℕ) (tape : List ℚ) (s : TauntS) : List ℕ :=
  if s.queue.isEmpty then shuffleTauntQueue (List.range n) tape else s.queue

/-- The anti-repeat phase of `getNextTaunt`: if the head equals the last
shown index and more than one entry remains, swap the head with the first
later entry that differs (no swap when every later entry matches).
`headD 0` reads `q[0]`; the queue is nonempty whenever `n ≥ 1`, so the
default is never consulted in the claims below. -/
def antiRepeat (last : Int) (q : List ℕ) : List ℕ :=
  if ((q.headD 0 : ℕ) : Int) = last ∧ 1 < q.length then
    match firstDiffIdx last q.tail with
    | some k => swapIdx q 0 (k + 1)
    | none => q
  else q

/-- Source `getNextTaunt` for a taunt list of length `n`, with a fresh random
tape for the reshuffle (used only when the queue is empty): regenerate and
shuffle if empty, run the anti-repeat swap, then consume the head and
record it as the last shown index. -/
def getNextTaunt (n : ℕ) (tape : List ℚ) (s : TauntS) : ℕ × TauntS :=
  let q2 := antiRepeat s.lastIdx (regenQueue n tape s)
  (q2.headD 0, ⟨q2.tail, ((q2.headD 0 : ℕ) : Int)⟩)

/-- A sequence of `getNextTaunt` draws, one fresh tape per draw (a tape is
consumed only when that draw regenerates the queue). -/
def runTaunts (n : ℕ) : List (List ℚ) → TauntS → List ℕ
  | [], _ => []
  | tape :: tapes, s =>
      let r := getNextTaunt n tape s
      r.1 :: runTaunts n tapes r.2

/-- The taunt state right after attach:
`tauntQueue = [...Array(n).keys()]` shuffled once, `lastTauntIndex = -1`. -/
def initTaunt (n : ℕ) (tape : List ℚ) : TauntS :=
  ⟨shuffleTauntQueue (List.range n) tape, -1⟩

/-- Observable effects of a triggered escape: `onEscape` fires once, the
jump flag is set, and the jump target is the selected destination. -/
lemma escapeFrom_triggered_obs (cfg : Cfg) (mx my sq : ℚ)
    (trig : List (ℚ × ℚ)) (tauntOk : Bool) (s : S)
    (hc : s.isCaught = false) (hj : s.isJumping = false)
    (hd : 0 < cfg.detectionRadius ∧
      distSq mx my s.styleX s.styleY <
        cfg.detectionRadius * cfg.detectionRadius) :
    (escapeFrom cfg mx my sq trig tauntOk s).onEscapeCount = s.onEscapeCount + 1 ∧
    (escapeFrom cfg mx my sq trig tauntOk s).isJumping = true ∧
    (escapeFrom cfg mx my sq trig tauntOk s).jumpTargetX =
      (escapeDest cfg s.styleX s.styleY mx my sq s.currentX s.currentY trig).1 ∧
    (escapeFrom cfg mx my sq trig tauntOk s).jumpTargetY =
      (escapeDest cfg s.styleX s.styleY mx my sq s.currentX s.currentY trig).2 := by
  simp only [escapeFrom, getButtonCenter]
  rw [if_neg (by simp [hc, hj]), if_pos hd]
  split <;> exact ⟨rfl, rfl, rfl, rfl⟩

/-- An escape with a failed guard or an out-of-range pointer leaves the
state untouched. -/
lemma escapeFrom_no_trigger (cfg : Cfg) (mx my sq : ℚ)
    (trig : List (ℚ × ℚ)) (tauntOk : Bool) (s : S)
    (h : s.isCaught = true ∨ s.isJumping = true ∨
      ¬(0 < cfg.detectionRadius ∧
        distSq mx my s.styleX s.styleY <
          cfg.detectionRadius * cfg.detectionRadius)) :
    escapeFrom cfg mx my sq trig tauntOk s = s := by
  simp only [escapeFrom, getButtonCenter]
  by_cases hg : (s.isCaught || s.isJumping) = true
  · rw [if_pos hg]
  · rw [if_neg hg]
    have hd : ¬(0 < cfg.detectionRadius ∧
        distSq mx my s.styleX s.styleY <
          cfg.detectionRadius * cfg.detectionRadius) := by
      rcases h with h | h | h
      · exact absurd (by simp [h]) hg
      · exact absurd (by simp [h]) hg
      · exact h
    rw [if_neg hd]

/-- Every clamped candidate lies in the movement envelope. -/
lemma candidateAt_in_envelope (cx cy ux uy e maxX minY maxY : ℚ)
    (cs : ℚ × ℚ) (hx : 0 ≤ maxX) (hy : minY ≤ maxY) :
    inEnvelope maxX minY maxY (candidateAt cx cy ux uy e maxX minY maxY cs) := by
  unfold candidateAt inEnvelope
  have hlo : -maxX ≤ maxX := by linarith
  exact ⟨le_clamp _ _ _ hlo, clamp_le _ _ _ hlo, le_clamp _ _ _ hy, clamp_le _ _ _ hy⟩

/-- A fold over candidates that never beat the accumulator leaves it
unchanged. -/
lemma foldl_betterOf_stay (cx cy : ℚ) :
    ∀ (l : List (ℚ × ℚ)) (acc : (ℚ × ℚ) × ℚ),
      (∀ x ∈ l, distSq cx cy x.1 x.2 ≤ acc.2) →
      l.foldl (betterOf cx cy) acc = acc
  | [], _, _ => rfl
  | x :: rest, acc, h => by
      have hx : distSq cx cy x.1 x.2 ≤ acc.2 := h x (List.mem_cons_self _ _)
      have hb : betterOf cx cy acc x = acc := by
        unfold betterOf
        rw [if_neg (not_lt.mpr hx)]
      rw [List.foldl_cons, hb]
      exact foldl_betterOf_stay cx cy rest acc
        (fun y hy => h y (List.mem_cons_of_mem _ hy))

/-- When every candidate coincides, the selection returns it. -/
lemma pickBest_const (cx cy : ℚ) (c : ℚ × ℚ) (cands : List (ℚ × ℚ))
    (hne : cands ≠ []) (hconst : ∀ x ∈ cands, x = c) :
    (pickBest cx cy cands).1 = c := by
  rcases cands with - | ⟨a, rest⟩
  · exact absurd rfl hne
  have ha : a = c := hconst a (List.mem_cons_self _ _)
  subst ha
  have hrest : ∀ x ∈ rest, x = a := fun x hx => hconst x (List.mem_cons_of_mem _ hx)
  unfold pickBest
  rw [List.foldl_cons]
  by_cases hm : (0 : ℚ) < distSq cx cy a.1 a.2
  · have hb : betterOf cx cy ((cx, cy), 0) a = (a, distSq cx cy a.1 a.2) := by
      unfold betterOf
      rw [if_pos hm]
    rw [hb, foldl_betterOf_stay cx cy rest _ (by
      intro x hx
      rw [hrest x hx])]
  · have hz : distSq cx cy a.1 a.2 = 0 :=
      le_antisymm (not_lt.mp hm) (distSq_nonneg _ _ _ _)
    have hb : betterOf cx cy ((cx, cy), 0) a = ((cx, cy), 0) := by
      unfold betterOf
      rw [if_neg (by rw [hz]; exact lt_irrefl 0)]
    rw [hb, foldl_betterOf_stay cx cy rest _ (by
      intro x hx
      rw [hrest x hx, hz])]
    obtain ⟨h1, h2⟩ := (distSq_eq_zero_iff cx cy a.1 a.2).mp hz
    show ((cx, cy) : ℚ × ℚ) = a
    rcases a with ⟨a1, a2⟩
    simp at h1 h2
    simp [h1, h2]

/-- With a zero direction (pointer exactly at the element center) every
candidate degenerates to the clamped current offset. -/
lemma candidateAt_zero_dir (cx cy e maxX minY maxY : ℚ) (cs : ℚ × ℚ) :
    candidateAt cx cy 0 0 e maxX minY maxY cs =
      (clamp cx (-maxX) maxX, clamp cy minY maxY) := by
  unfold candidateAt
  norm_num

/-- Mutual exclusion of the two animation flags. -/
def mutexJR (s : S) : Prop := s.isJumping = false ∨ s.isReturning = false

/-- Restriction on a trace: a `returnToCenter`-invoking timer (the stored
return timer or the anonymous 600ms click timer) never fires while a jump
is in flight.  The unrestricted system violates the mutual-exclusion
invariant exactly through such firings. -/
def fireGuardOk (s : S) : Ev → Bool
  | Ev.fireReturn => !s.isJumping
  | Ev.fireAnonReturn => !s.isJumping
  | _ => true

def firesOkFrom (cfg : Cfg) : S → List Ev → Bool
  | _, [] => true
  | s, e :: es => fireGuardOk s e && firesOkFrom cfg (step cfg s e) es

lemma escapeFrom_flags (cfg : Cfg) (mx my sq : ℚ) (trig : List (ℚ × ℚ))
    (tauntOk : Bool) (s : S) :
    (escapeFrom cfg mx my sq trig tauntOk s).isReturning = false ∨
      escapeFrom cfg mx my sq trig tauntOk s = s := by
  simp only [escapeFrom, startJump, showTaunt, getButtonCenter]
  split_ifs <;> simp

lemma step_mutex (cfg : Cfg) (s : S) (e : Ev) (h : mutexJR s)
    (hguard : (e = Ev.fireReturn ∨ e = Ev.fireAnonReturn) → s.isJumping = false) :
    mutexJR (step cfg s e) := by
  cases e with
  | mouseMove mx my sq trig tauntOk =>
      show mutexJR (if s.destroyed then s
        else handleMouseMove cfg mx my sq trig tauntOk s)
      split
      · exact h
      · have hmm : (handleMouseMove cfg mx my sq trig tauntOk s).isReturning =
            (escapeFrom cfg mx my sq trig tauntOk s).isReturning ∧
            (handleMouseMove cfg mx my sq trig tauntOk s).isJumping =
            (escapeFrom cfg mx my sq trig tauntOk s).isJumping := by
          simp only [handleMouseMove]
          split <;> exact ⟨rfl, rfl⟩
        rcases escapeFrom_flags cfg mx my sq trig tauntOk s with hf | hf
        · right; rw [hmm.1, hf]
        · rcases h with h | h
          · left; rw [hmm.2, hf]; exact h
          · right; rw [hmm.1, hf]; exact h
  | mouseLeave =>
      show mutexJR (if s.destroyed then s else handleMouseLeave s)
      split <;> exact h
  | click =>
      show mutexJR (if s.destroyed then s else handleClick s)
      split
      · exact h
      · simp only [handleClick]
        split
        · exact h
        · left; rfl
  | springFrame =>
      show mutexJR (if s.animFramePending then
        springAnimate cfg { s with animFramePending := false } else s)
      split
      · simp only [springAnimate]
        split_ifs <;> first | (right; rfl) | exact h
      · exact h
  | jumpFrame t d =>
      show mutexJR (if s.jumpFramePending then
        jumpAnimate cfg t d { s with jumpFramePending := false } else s)
      split
      · simp only [jumpAnimate]
        split_ifs <;> first | (left; rfl) | exact h
      · exact h
  | fireReturn =>
      show mutexJR (if s.returnTimeoutPending then
        returnToCenter { s with returnTimeoutPending := false } else s)
      split
      · have hj := hguard (Or.inl rfl)
        simp only [returnToCenter]
        split_ifs <;> (left; exact hj)
      · exact h
  | fireTauntHide =>
      show mutexJR (if s.tauntTimeoutPending then
        { s with tauntTimeoutPending := false } else s)
      split <;> exact h
  | fireAnonReturn =>
      show mutexJR (if 0 < s.anonReturn600 then
        returnToCenter { s with anonReturn600 := s.anonReturn600 - 1 } else s)
      split
      · have hj := hguard (Or.inr rfl)
        simp only [returnToCenter]
        split_ifs <;> (left; exact hj)
      · exact h
  | fireAnonRestore =>
      show mutexJR (if 0 < s.anonRestore then
        { s with anonRestore := s.anonRestore - 1,
                 contentCaught := false, isCaught := false } else s)
      split <;> exact h
  | destroy => exact h

lemma run_mutex (cfg : Cfg) :
    ∀ (evs : List Ev) (s : S), mutexJR s →
      firesOkFrom cfg s evs = true → mutexJR (run cfg s evs)
  | [], s, h, _ => h
  | e :: evs, s, h, hok => by
      rw [firesOkFrom, Bool.and_eq_true] at hok
      have hguard : (e = Ev.fireReturn ∨ e = Ev.fireAnonReturn) →
          s.isJumping = false := by
        intro he
        rcases he with he | he <;> subst he <;> simpa [fireGuardOk] using hok.1
      show mutexJR (run cfg (step cfg s e) evs)
      exact run_mutex cfg evs (step cfg s e) (step_mutex cfg s e h hguard) hok.2

/-- Bookkeeping invariant of the stored handles: a pending continuation
always has a non-null handle variable (the source only ever schedules into
the variable, and only nulls it together with a cancellation). -/
def handleInv (s : S) : Prop :=
  (s.animFramePending = true → s.animFrameVar = true) ∧
  (s.jumpFramePending = true → s.jumpFrameVar = true) ∧
  (s.returnTimeoutPending = true → s.returnTimeoutVar = true) ∧
  (s.tauntTimeoutPending = true → s.tauntTimeoutVar = true)

lemma escapeFrom_handleInv (cfg : Cfg) (mx my sq : ℚ) (trig : List (ℚ × ℚ))
    (tauntOk : Bool) (s : S) (h : handleInv s) :
    handleInv (escapeFrom cfg mx my sq trig tauntOk s) := by
  simp only [escapeFrom, startJump, showTaunt, getButtonCenter]
  split_ifs
  · exact h
  · exact ⟨fun hh => hh, fun _ => rfl, fun hh => hh, fun _ => rfl⟩
  · exact ⟨fun hh => hh, fun _ => rfl, fun hh => hh, h.2.2.2⟩
  · exact h

lemma step_handleInv (cfg : Cfg) (s : S) (e : Ev) (h : handleInv s) :
    handleInv (step cfg s e) := by
  cases e with
  | mouseMove mx my sq trig tauntOk =>
      show handleInv (if s.destroyed then s
        else handleMouseMove cfg mx my sq trig tauntOk s)
      split
      · exact h
      · have h1 := escapeFrom_handleInv cfg mx my sq trig tauntOk s h
        simp only [handleMouseMove, getButtonCenter]
        split_ifs
        · exact ⟨h1.1, h1.2.1, fun _ => rfl, h1.2.2.2⟩
        · exact ⟨h1.1, h1.2.1, fun hh => by simp at hh, h1.2.2.2⟩
  | mouseLeave =>
      show handleInv (if s.destroyed then s else handleMouseLeave s)
      split
      · exact h
      · exact ⟨h.1, h.2.1, fun _ => rfl, h.2.2.2⟩
  | click =>
      show handleInv (if s.destroyed then s else handleClick s)
      split
      · exact h
      · simp only [handleClick]
        split
        · exact h
        · exact ⟨fun hh => by simp at hh, fun hh => by simp at hh,
            fun hh => by simp at hh, h.2.2.2⟩
  | springFrame =>
      show handleInv (if s.animFramePending then
        springAnimate cfg { s with animFramePending := false } else s)
      split
      · simp only [springAnimate]
        split_ifs
        · exact ⟨fun hh => by simp at hh, h.2.1, h.2.2.1, h.2.2.2⟩
        · exact ⟨fun _ => rfl, h.2.1, h.2.2.1, h.2.2.2⟩
        · exact ⟨fun hh => by simp at hh, h.2.1, h.2.2.1, h.2.2.2⟩
      · exact h
  | jumpFrame t d =>
      show handleInv (if s.jumpFramePending then
        jumpAnimate cfg t d { s with jumpFramePending := false } else s)
      split
      · simp only [jumpAnimate]
        split_ifs
        · exact ⟨h.1, fun hh => by simp at hh, fun _ => rfl, h.2.2.2⟩
        · exact ⟨h.1, fun _ => rfl, h.2.2.1, h.2.2.2⟩
        · exact ⟨h.1, fun hh => by simp at hh, fun _ => rfl, h.2.2.2⟩
        · exact ⟨h.1, fun _ => rfl, h.2.2.1, h.2.2.2⟩
      · exact h
  | fireReturn =>
      show handleInv (if s.returnTimeoutPending then
        returnToCenter { s with returnTimeoutPending := false } else s)
      split
      · simp only [returnToCenter]
        split_ifs
        · exact ⟨h.1, h.2.1, fun hh => by simp at hh, h.2.2.2⟩
        · exact ⟨fun _ => rfl, h.2.1, fun hh => by simp at hh, h.2.2.2⟩
      · exact h
  | fireTauntHide =>
      show handleInv (if s.tauntTimeoutPending then
        { s with tauntTimeoutPending := false } else s)
      split
      · exact ⟨h.1, h.2.1, h.2.2.1, fun hh => by simp at hh⟩
      · exact h
  | fireAnonReturn =>
      show handleInv (if 0 < s.anonReturn600 then
        returnToCenter { s with anonReturn600 := s.anonReturn600 - 1 } else s)
      split
      · simp only [returnToCenter]
        split_ifs
        · exact ⟨h.1, h.2.1, h.2.2.1, h.2.2.2⟩
        · exact ⟨fun _ => rfl, h.2.1, h.2.2.1, h.2.2.2⟩
      · exact h
  | fireAnonRestore =>
      show handleInv (if 0 < s.anonRestore then
        { s with anonRestore := s.anonRestore - 1,
                 contentCaught := false, isCaught := false } else s)
      split
      · exact ⟨h.1, h.2.1, h.2.2.1, h.2.2.2⟩
      · exact h
  | destroy =>
      show handleInv (destroyFn s)
      refine ⟨?_, ?_, ?_, ?_⟩
      · intro hh
        show s.animFrameVar = true
        by_cases hv : s.animFrameVar = true
        · exact hv
        · have hp : s.animFramePending = true := by
            have hv' : s.animFrameVar = false := by
              cases hb : s.animFrameVar
              · rfl
              · exact absurd hb hv
            simpa [destroyFn, hv'] using hh
          exact h.1 hp
      · intro hh
        show s.jumpFrameVar = true
        by_cases hv : s.jumpFrameVar = true
        · exact hv
        · have hp : s.jumpFramePending = true := by
            have hv' : s.jumpFrameVar = false := by
              cases hb : s.jumpFrameVar
              · rfl
              · exact absurd hb hv
            simpa [destroyFn, hv'] using hh
          exact h.2.1 hp
      · intro hh
        show s.returnTimeoutVar = true
        by_cases hv : s.returnTimeoutVar = true
        · exact hv
        · have hp : s.returnTimeoutPending = true := by
            have hv' : s.returnTimeoutVar = false := by
              cases hb : s.returnTimeoutVar
              · rfl
              · exact absurd hb hv
            simpa [destroyFn, hv'] using hh
          exact h.2.2.1 hp
      · intro hh
        show s.tauntTimeoutVar = true
        by_cases hv : s.tauntTimeoutVar = true
        · exact hv
        · have hp : s.tauntTimeoutPending = true := by
            have hv' : s.tauntTimeoutVar = false := by
              cases hb : s.tauntTimeoutVar
              · rfl
              · exact absurd hb hv
            simpa [destroyFn, hv'] using hh
          exact h.2.2.2 hp

lemma run_handleInv (cfg : Cfg) :
    ∀ (evs : List Ev) (s : S), handleInv s → handleInv (run cfg s evs)
  | [], _, h => h
  | e :: evs, s, h => by
      show handleInv (run cfg (step cfg s e) evs)
      exact run_handleInv cfg evs (step cfg s e) (step_handleInv cfg s e h)

lemma initState_handleInv (cfg : Cfg) : handleInv (initState cfg) :=
  ⟨fun hh => by simp [initState] at hh, fun hh => by simp [initState] at hh,
   fun hh => by simp [initState] at hh, fun hh => by simp [initState] at hh⟩

/-- Teardown drops every pending stored continuation, given the
bookkeeping invariant. -/
lemma destroyFn_cancels (s : S) (h : handleInv s) :
    (destroyFn s).animFramePending = false ∧
      (destroyFn s).jumpFramePending = false ∧
      (destroyFn s).returnTimeoutPending = false ∧
      (destroyFn s).tauntTimeoutPending = false := by
  refine ⟨?_, ?_, ?_, ?_⟩
  · show (if s.animFrameVar then false else s.animFramePending) = false
    split
    · rfl
    · next hv =>
        cases hp : s.animFramePending
        · rfl
        · exact absurd (h.1 hp) (by simpa using hv)
  · show (if s.jumpFrameVar then false else s.jumpFramePending) = false
    split
    · rfl
    · next hv =>
        cases hp : s.jumpFramePending
        · rfl
        · exact absurd (h.2.1 hp) (by simpa using hv)
  · show (if s.returnTimeoutVar then false else s.returnTimeoutPending) = false
    split
    · rfl
    · next hv =>
        cases hp : s.returnTimeoutPending
        · rfl
        · exact absurd (h.2.2.1 hp) (by simpa using hv)
  · show (if s.tauntTimeoutVar then false else s.tauntTimeoutPending) = false
    split
    · rfl
    · next hv =>
        cases hp : s.tauntTimeoutPending
        · rfl
        · exact absurd (h.2.2.2 hp) (by simpa using hv)

/-- Teardown is idempotent on the controller state. -/
lemma destroyFn_idem (s : S) : destroyFn (destroyFn s) = destroyFn s := by
  simp only [destroyFn]
  split_ifs <;> rfl

/-- A Lyapunov quadratic form for the per-axis spring map.  For the exact
rational constants of the source (tension 120/1000, damping 1 - 28/100)
the map multiplies this form by exactly 18/25 each frame
(`springE_core_contract` below). -/
def springE (x v : ℚ) : ℚ := 108 * x ^ 2 + 242 * x * v + 900 * v ^ 2

/-- The Lyapunov energy of a planar spring state (target at the origin,
as `returnToCenter` sets it). -/
def springEtot (p : SpringV) : ℚ := springE p.x p.vx + springE p.y p.vy

lemma springE_nonneg (x v : ℚ) : 0 ≤ springE x v := by
  unfold springE
  nlinarith [sq_nonneg (216 * x + 242 * v), sq_nonneg v]

lemma springEtot_nonneg (p : SpringV) : 0 ≤ springEtot p :=
  add_nonneg (springE_nonneg _ _) (springE_nonneg _ _)

/-- The form dominates the squared offset: `91 x² ≤ E(x, v)`. -/
lemma springE_dom_x (x v : ℚ) : 91 * x ^ 2 ≤ springE x v := by
  unfold springE
  nlinarith [sq_nonneg (34 * x + 242 * v), sq_nonneg v]

/-- The form dominates the squared velocity: `764 v² ≤ E(x, v)`. -/
lemma springE_dom_v (x v : ℚ) : 764 * v ^ 2 ≤ springE x v := by
  unfold springE
  nlinarith [sq_nonneg (216 * x + 242 * v), sq_nonneg v]

/-- One spring frame toward the origin contracts the energy by exactly
18/25. -/
lemma springEtot_core_contract (p : SpringV) :
    springEtot (springCore 0 0 p) = 18 / 25 * springEtot p := by
  simp only [springCore, springEtot, springE, SPRING_TENSION, SPRING_FRICTION]
  ring

lemma springEtot_iter (n : ℕ) (p : SpringV) :
    springEtot (springIter 0 0 n p) = (18 / 25) ^ n * springEtot p := by
  induction n generalizing p with
  | zero => simp [springIter]
  | succ n ih =>
      have h1 : springIter 0 0 (n + 1) p = springIter 0 0 n (springCore 0 0 p) := rfl
      rw [h1, ih, springEtot_core_contract]
      ring

lemma set_get_self : ∀ (l : List ℕ) (i : ℕ) (h : i < l.length),
    l.set i (l.get ⟨i, h⟩) = l
  | [], i, h => by simp at h
  | _ :: _, 0, _ => rfl
  | a :: t, i + 1, h => by
      simp only [List.set_cons_succ, List.get]
      rw [set_get_self t i (by simpa using h)]

/-- Swapping any element of a list with a fresh head is a permutation. -/
lemma cons_set_perm : ∀ (t : List ℕ) (m : ℕ) (h : m < t.length) (x : ℕ),
    List.Perm (x :: t) (t.get ⟨m, h⟩ :: t.set m x)
  | [], m, h, _ => by simp at h
  | y :: t', 0, _, x => List.Perm.swap y x t'
  | y :: t', m + 1, h, x => by
      have hm : m < t'.length := by simpa using h
      show List.Perm (x :: y :: t') (t'.get ⟨m, hm⟩ :: y :: t'.set m x)
      exact ((List.Perm.swap y x t').trans
          (List.Perm.cons y (cons_set_perm t' m hm x))).trans
        (List.Perm.swap (t'.get ⟨m, hm⟩) y (t'.set m x))

/-- The double-`set` swap used by the shuffle is a permutation. -/
lemma swap_sets_perm : ∀ (l : List ℕ) (i j : ℕ) (hi : i < l.length)
    (hj : j < l.length),
    List.Perm ((l.set i (l.get ⟨j, hj⟩)).set j (l.get ⟨i, hi⟩)) l
  | [], i, _, hi, _ => by simp at hi
  | c :: t, 0, 0, _, _ => by simp
  | c :: t, 0, m + 1, hi, hj => by
      have hm : m < t.length := by simpa using hj
      simp only [List.get, List.set_cons_zero, List.set_cons_succ]
      exact (cons_set_perm t m hm c).symm
  | c :: t, k + 1, 0, hi, hj => by
      have hk : k < t.length := by simpa using hi
      simp only [List.get, List.set_cons_succ, List.set_cons_zero]
      exact (cons_set_perm t k hk c).symm
  | c :: t, k + 1, m + 1, hi, hj => by
      have hk : k < t.length := by simpa using hi
      have hm : m < t.length := by simpa using hj
      simp only [List.get, List.set_cons_succ]
      exact List.Perm.cons c (swap_sets_perm t k m hk hm)

lemma swapIdx_perm (l : List ℕ) (i j : ℕ) : List.Perm (swapIdx l i j) l := by
  unfold swapIdx
  split
  · next h => exact swap_sets_perm l i j h.1 h.2
  · exact List.Perm.refl l

lemma shuffleAux_perm : ∀ (i : ℕ) (q : List ℕ) (tape : List ℚ),
    List.Perm (shuffleAux q tape i) q
  | 0, q, tape => by
      rw [shuffleAux]
  | i + 1, q, [] => by
      rw [shuffleAux]
  | i + 1, q, r :: rest => by
      rw [shuffleAux]
      exact (shuffleAux_perm i _ rest).trans
        (swapIdx_perm q (i + 1) (Int.toNat (Int.floor (r * ((i : ℚ) + 2)))))

lemma shuffleTauntQueue_perm (q : List ℕ) (tape : List ℚ) :
    List.Perm (shuffleTauntQueue q tape) q :=
  shuffleAux_perm _ q tape

lemma antiRepeat_perm (last : Int) (q : List ℕ) :
    List.Perm (antiRepeat last q) q := by
  unfold antiRepeat
  split
  · split
    · exact swapIdx_perm _ _ _
    · exact List.Perm.refl q
  · exact List.Perm.refl q

/-- The inductive invariant of the taunt state: the queue holds pairwise
distinct indices, and a singleton queue never holds the last shown
index. -/
def TInv (s : TauntS) : Prop :=
  s.queue.Nodup ∧ ∀ x, s.queue = [x] → ((x : ℕ) : Int) ≠ s.lastIdx

lemma regenQueue_perm (n : ℕ) (tape : List ℚ) (s : TauntS) :
    List.Perm (regenQueue n tape s)
      (if s.queue.isEmpty then List.range n else s.queue) := by
  unfold regenQueue
  split
  · exact shuffleTauntQueue_perm _ _
  · exact List.Perm.refl _

/-- Behaviour of the anti-repeat phase on a well-formed queue: the head of
its output differs from the last shown index. -/
lemma antiRepeat_head_ne (last : Int) (q : List ℕ) (hne : q ≠ [])
    (hnd : q.Nodup) (hsing : ∀ x, q = [x] → ((x : ℕ) : Int) ≠ last) :
    (((antiRepeat last q).headD 0 : ℕ) : Int) ≠ last := by
  rcases q with - | ⟨a, t⟩
  · exact absurd rfl hne
  by_cases hc : ((a : ℕ) : Int) = last ∧ 1 < (a :: t).length
  · -- head equals last and at least two entries: the swap fires at index 1
    rcases t with - | ⟨b, r⟩
    · simp at hc
    have hab : a ≠ b := by
      have := (List.nodup_cons.mp hnd).1
      intro h
      exact this (h ▸ List.mem_cons_self b r)
    have hbne : ((b : ℕ) : Int) ≠ last := by
      rw [← hc.1]
      exact fun h => hab (Int.natCast_inj.mp h.symm)
    have hfd : firstDiffIdx last (b :: r) = some 0 := by
      unfold firstDiffIdx
      rw [if_pos hbne]
    have hswap : swapIdx (a :: b :: r) 0 1 = b :: a :: r := by
      unfold swapIdx
      rw [dif_pos (by constructor <;> simp)]
      simp [List.get]
    unfold antiRepeat
    simp only [List.headD_cons, List.tail_cons]
    rw [if_pos hc]
    simp only [hfd, hswap]
    simpa using hbne
  · -- no swap: show the head already differs from last
    unfold antiRepeat
    simp only [List.headD_cons, List.tail_cons]
    rw [if_neg hc]
    simp only [List.headD_cons]
    intro h
    apply hc
    refine ⟨h, ?_⟩
    by_contra hlen
    have : t = [] := by
      rcases t with - | ⟨u, v⟩
      · rfl
      · exact absurd (by simp) hlen
    exact hsing a (by rw [this]) h

/-- The queue after the (possible) regeneration is nonempty, duplicate
free, and a singleton still avoids the last shown index. -/
lemma regenQueue_wf (n : ℕ) (hn : 1 < n) (tape : List ℚ) (s : TauntS)
    (hI : TInv s) :
    regenQueue n tape s ≠ [] ∧ (regenQueue n tape s).Nodup ∧
      ∀ x, regenQueue n tape s = [x] → ((x : ℕ) : Int) ≠ s.lastIdx := by
  have hq := regenQueue_perm n tape s
  refine ⟨?_, ?_, ?_⟩
  · intro h
    have := hq.length_eq
    rw [h] at this
    by_cases hE : s.queue.isEmpty
    · rw [if_pos hE] at this
      simp at this
      omega
    · rw [if_neg hE] at this
      simp at this
      exact hE (by simp [List.isEmpty_iff, List.length_eq_zero.mp this.symm])
  · refine hq.symm.nodup ?_
    split
    · exact List.nodup_range n
    · exact hI.1
  · intro x hx
    by_cases hE : s.queue.isEmpty
    · have := hq.length_eq
      rw [hx, if_pos hE] at this
      simp at this
      omega
    · have := hq
      rw [hx, if_neg hE] at this
      exact hI.2 x (List.singleton_perm.mp this).symm

/-- A `getNextTaunt` draw from a well-formed state never repeats the last
shown index (requires at least two taunts). -/
lemma getNextTaunt_ne (n : ℕ) (hn : 1 < n) (tape : List ℚ) (s : TauntS)
    (hI : TInv s) :
    (((getNextTaunt n tape s).1 : ℕ) : Int) ≠ s.lastIdx := by
  obtain ⟨hqne, hqnd, hqsing⟩ := regenQueue_wf n hn tape s hI
  exact antiRepeat_head_ne s.lastIdx (regenQueue n tape s) hqne hqnd hqsing

/-- A `getNextTaunt` draw preserves the taunt invariant. -/
lemma getNextTaunt_inv (n : ℕ) (hn : 1 < n) (tape : List ℚ) (s : TauntS)
    (hI : TInv s) : TInv (getNextTaunt n tape s).2 := by
  obtain ⟨hqne, hqnd, _⟩ := regenQueue_wf n hn tape s hI
  have hperm := antiRepeat_perm s.lastIdx (regenQueue n tape s)
  have h2nd : (antiRepeat s.lastIdx (regenQueue n tape s)).Nodup :=
    hperm.symm.nodup hqnd
  have h2ne : antiRepeat s.lastIdx (regenQueue n tape s) ≠ [] := by
    intro h0
    have := hperm.length_eq
    rw [h0] at this
    exact hqne (List.length_eq_zero.mp this.symm)
  rcases hq2 : antiRepeat s.lastIdx (regenQueue n tape s) with - | ⟨a, t⟩
  · exact absurd hq2 h2ne
  · have hnd2 := hq2 ▸ h2nd
    constructor
    · show (antiRepeat s.lastIdx (regenQueue n tape s)).tail.Nodup
      rw [hq2]
      exact (List.nodup_cons.mp hnd2).2
    · intro x hx
      have hx' : (antiRepeat s.lastIdx (regenQueue n tape s)).tail = [x] := hx
      rw [hq2] at hx'
      simp only [List.tail_cons] at hx'
      have hax : a ∉ t := (List.nodup_cons.mp hnd2).1
      have : x ≠ a := by
        intro h
        apply hax
        rw [hx', h]
        exact List.mem_cons_self a []
      show ((x : ℕ) : Int) ≠
        (((antiRepeat s.lastIdx (regenQueue n tape s)).headD 0 : ℕ) : Int)
      rw [hq2]
      simp only [List.headD_cons]
      exact fun h => this (Int.natCast_inj.mp h)

/-- Over any draw sequence from a well-formed state, consecutive draws
always differ, and the first draw differs from the stored last index. -/
lemma runTaunts_chain (n : ℕ) (hn : 1 < n) :
    ∀ (tapes : List (List ℚ)) (s : TauntS), TInv s →
      List.Chain' (fun a b => a ≠ b) (runTaunts n tapes s) ∧
        ∀ x, (runTaunts n tapes s).head? = some x →
          ((x : ℕ) : Int) ≠ s.lastIdx
  | [], s, _ => by
      constructor
      · rw [runTaunts]
        exact List.chain'_nil
      · intro x hx
        rw [runTaunts] at hx
        simp at hx
  | tape :: tapes, s, hI => by
      have hne := getNextTaunt_ne n hn tape s hI
      have hinv := getNextTaunt_inv n hn tape s hI
      obtain ⟨ih1, ih2⟩ := runTaunts_chain n hn tapes (getNextTaunt n tape s).2 hinv
      have hlast : (getNextTaunt n tape s).2.lastIdx =
          (((getNextTaunt n tape s).1 : ℕ) : Int) := rfl
      constructor
      · show List.Chain' (fun a b => a ≠ b)
          ((getNextTaunt n tape s).1 :: runTaunts n tapes (getNextTaunt n tape s).2)
        rw [List.chain'_cons']
        refine ⟨?_, ih1⟩
        intro y hy
        have hy' := ih2 y (by simpa using hy)
        rw [hlast] at hy'
        exact fun h => hy' (by rw [h])
      · intro x hx
        have hx' : x = (getNextTaunt n tape s).1 := by
          have : ((getNextTaunt n tape s).1 ::
              runTaunts n tapes (getNextTaunt n tape s).2).head? = some x := hx
          simpa using this.symm
        rw [hx']
        exact hne

/-- Shape of a draw from a nonempty queue: no regeneration happens, the
consumed queue is the anti-repeat permutation of the stored one. -/
lemma getNextTaunt_nonempty_shape (n : ℕ) (tape : List ℚ) (s : TauntS)
    (hne : s.queue ≠ []) :
    ∃ a t, (a :: t).Perm s.queue ∧
      getNextTaunt n tape s = (a, ⟨t, ((a : ℕ) : Int)⟩) := by
  have hE : s.queue.isEmpty = false := by
    cases hq : s.queue with
    | nil => exact absurd hq hne
    | cons a l => rfl
  have hregen : regenQueue n tape s = s.queue := by
    unfold regenQueue
    rw [hE]
    rfl
  have hperm : (antiRepeat s.lastIdx (regenQueue n tape s)).Perm s.queue := by
    rw [hregen]
    exact antiRepeat_perm _ _
  have h2ne : antiRepeat s.lastIdx (regenQueue n tape s) ≠ [] := by
    intro h0
    have := hperm.length_eq
    rw [h0] at this
    exact hne (List.length_eq_zero.mp this.symm)
  rcases hq2 : antiRepeat s.lastIdx (regenQueue n tape s) with - | ⟨a, t⟩
  · exact absurd hq2 h2ne
  · refine ⟨a, t, hq2 ▸ hperm, ?_⟩
    show ((antiRepeat s.lastIdx (regenQueue n tape s)).headD 0,
      (⟨(antiRepeat s.lastIdx (regenQueue n tape s)).tail,
        (((antiRepeat s.lastIdx (regenQueue n tape s)).headD 0 : ℕ) : Int)⟩ : TauntS)) =
      (a, ⟨t, ((a : ℕ) : Int)⟩)
    rw [hq2]
    rfl

/-- Shape of a draw from an empty queue: the queue regenerates to a
permutation of all `n` indices, then behaves as above. -/
lemma getNextTaunt_regen_shape (n : ℕ) (hn : 0 < n) (tape : List ℚ)
    (s : TauntS) (h0 : s.queue = []) :
    ∃ a t, (a :: t).Perm (List.range n) ∧
      getNextTaunt n tape s = (a, ⟨t, ((a : ℕ) : Int)⟩) := by
  have hE : s.queue.isEmpty = true := by rw [h0]; rfl
  have hregen : regenQueue n tape s = shuffleTauntQueue (List.range n) tape := by
    unfold regenQueue
    rw [hE]
    rfl
  have hperm : (antiRepeat s.lastIdx (regenQueue n tape s)).Perm (List.range n) := by
    rw [hregen]
    exact (antiRepeat_perm _ _).trans (shuffleTauntQueue_perm _ _)
  have h2ne : antiRepeat s.lastIdx (regenQueue n tape s) ≠ [] := by
    intro hnil
    have := hperm.length_eq
    rw [hnil] at this
    simp at this
    omega
  rcases hq2 : antiRepeat s.lastIdx (regenQueue n tape s) with - | ⟨a, t⟩
  · exact absurd hq2 h2ne
  · refine ⟨a, t, hq2 ▸ hperm, ?_⟩
    show ((antiRepeat s.lastIdx (regenQueue n tape s)).headD 0,
      (⟨(antiRepeat s.lastIdx (regenQueue n tape s)).tail,
        (((antiRepeat s.lastIdx (regenQueue n tape s)).headD 0 : ℕ) : Int)⟩ : TauntS)) =
      (a, ⟨t, ((a : ℕ) : Int)⟩)
    rw [hq2]
    rfl

/-- Drawing exactly as many times as the queue holds consumes a
permutation of the stored queue (no regeneration in between). -/
lemma runTaunts_block_perm (n : ℕ) :
    ∀ (tapes : List (List ℚ)) (s : TauntS), tapes.length = s.queue.length →
      (runTaunts n tapes s).Perm s.queue
  | [], s, hlen => by
      have h0 : s.queue = [] := List.length_eq_zero.mp (by simpa using hlen.symm)
      rw [runTaunts, h0]
  | tape :: tapes, s, hlen => by
      have hne : s.queue ≠ [] := by
        intro h
        rw [h] at hlen
        simp at hlen
      obtain ⟨a, t, hperm, heq⟩ := getNextTaunt_nonempty_shape n tape s hne
      have hlt : tapes.length = t.length := by
        have h1 := hperm.length_eq
        simp only [List.length_cons] at h1 hlen ⊢
        omega
      have ih := runTaunts_block_perm n tapes ⟨t, ((a : ℕ) : Int)⟩ hlt
      show ((getNextTaunt n tape s).1 ::
        runTaunts n tapes (getNextTaunt n tape s).2).Perm s.queue
      rw [heq]
      exact (List.Perm.cons a ih).trans hperm

/-- A block of `n` draws starting at a queue regeneration consumes a
permutation of all `n` indices. -/
lemma runTaunts_regen_perm (n : ℕ) (hn : 0 < n) (tape : List ℚ)
    (tapes : List (List ℚ)) (s : TauntS) (h0 : s.queue = [])
    (hlen : tapes.length = n - 1) :
    (runTaunts n (tape :: tapes) s).Perm (List.range n) := by
  obtain ⟨a, t, hperm, heq⟩ := getNextTaunt_regen_shape n hn tape s h0
  have hlt : tapes.length = t.length := by
    have h1 := hperm.length_eq
    simp only [List.length_cons, List.length_range] at h1
    omega
  have ih := runTaunts_block_perm n tapes ⟨t, ((a : ℕ) : Int)⟩ hlt
  show ((getNextTaunt n tape s).1 ::
    runTaunts n tapes (getNextTaunt n tape s).2).Perm (List.range n)
  rw [heq]
  exact (List.Perm.cons a ih).trans hperm

/-- The spring-return iteration reaches its termination test from every
start state: once the energy has geometrically decayed below 764/100,
both the post-update speed bound and the pre-update distance bound hold
strictly. -/
lemma spring_reaches_done (p : SpringV) :
    ∃ n, springDone 0 0 (springIter 0 0 n p) := by
  have hE0 : (0 : ℚ) ≤ springEtot p := springEtot_nonneg p
  have hpos : (0 : ℚ) < (764 / 100) / (springEtot p + 1) := by positivity
  obtain ⟨n, hn⟩ := exists_pow_lt_of_lt_one hpos (by norm_num : (18 / 25 : ℚ) < 1)
  refine ⟨n, ?_⟩
  set q := springIter 0 0 n p with hq
  have hEq : springEtot q = (18 / 25) ^ n * springEtot p := springEtot_iter n p
  have hlt : springEtot q < 764 / 100 := by
    rw [hEq]
    have h1 : (18 / 25 : ℚ) ^ n * springEtot p ≤
        (18 / 25 : ℚ) ^ n * (springEtot p + 1) := by
      apply mul_le_mul_of_nonneg_left (by linarith) (by positivity)
    have h2 : (18 / 25 : ℚ) ^ n * (springEtot p + 1) <
        (764 / 100) / (springEtot p + 1) * (springEtot p + 1) := by
      apply mul_lt_mul_of_pos_right hn (by positivity)
    have h3 : (764 / 100 : ℚ) / (springEtot p + 1) * (springEtot p + 1) = 764 / 100 := by
      field_simp
      ring
    linarith
  have hcontract : springEtot (springCore 0 0 q) = 18 / 25 * springEtot q :=
    springEtot_core_contract q
  have hqnn : (0 : ℚ) ≤ springEtot q := springEtot_nonneg q
  constructor
  · have hvx := springE_dom_v (springCore 0 0 q).x (springCore 0 0 q).vx
    have hvy := springE_dom_v (springCore 0 0 q).y (springCore 0 0 q).vy
    have hsum : 764 * ((springCore 0 0 q).vx ^ 2 + (springCore 0 0 q).vy ^ 2) ≤
        springEtot (springCore 0 0 q) := by
      unfold springEtot at *
      linarith
    nlinarith [hsum, hcontract, hlt, hqnn]
  · have hx := springE_dom_x q.x q.vx
    have hy := springE_dom_x q.y q.vy
    have hsum : 91 * (q.x ^ 2 + q.y ^ 2) ≤ springEtot q := by
      unfold springEtot at *
      linarith
    nlinarith [hsum, hlt]

/-- A concrete configuration used by witnesses and counterexamples:
default options (`detectionRadius 140`, `escapeDistance 280`,
`edgePadding 60`) on a 1000x800 viewport, a 120px-wide element anchored
at (500, 400). -/
def cfg0 : Cfg :=
  { detectionRadius := 140, escapeDistance := 280, edgePadding := 60,
    vw := 1000, vh := 800, btnW := 120, startX := 500, startY := 400 }

/-- Rational stand-ins for the ten transcendental `(cos, sin)` pairs of
the source's angle list `[0, 0.3, -0.3, 0.6, -0.6, 0.9, -0.9, 1.2, -1.2,
π]`, used to instantiate witnesses and counterexamples.  Every theorem
below quantifies over the trig list, so it covers the true values as
well; the flag and handle behaviour never depends on them. -/
def trig0 : List (ℚ × ℚ) :=
  [(1, 0), (191/200, 59/200), (191/200, -59/200), (33/40, 113/200),
   (33/40, -113/200), (31/50, 39/50), (31/50, -39/50), (9/25, 93/100),
   (9/25, -93/100), (-1, 0)]

/-- C1: an escape is triggered by a pointer position (observed as
`onEscape` firing) exactly when the distance from the pointer to the
element's current center is strictly below `detectionRadius` and the
element is neither caught nor already jumping; a triggered escape starts a
jump, and in every other case `escapeFrom` leaves the state untouched (no
jump starts, `onEscape` is not invoked).  The distance is the real square
root of the squared pointer-to-center distance. -/
theorem escape_trigger_characterisation (cfg : Cfg) (s : S) (mx my sq : ℚ)
    (trig : List (ℚ × ℚ)) (tauntOk : Bool) :
    ((escapeFrom cfg mx my sq trig tauntOk s).onEscapeCount =
        s.onEscapeCount + 1 ↔
      s.isCaught = false ∧ s.isJumping = false ∧
        Real.sqrt ((distSq mx my s.styleX s.styleY : ℚ) : ℝ) <
          ((cfg.detectionRadius : ℚ) : ℝ)) ∧
    ((escapeFrom cfg mx my sq trig tauntOk s).onEscapeCount =
        s.onEscapeCount + 1 →
      (escapeFrom cfg mx my sq trig tauntOk s).isJumping = true) ∧
    (¬(s.isCaught = false ∧ s.isJumping = false ∧
        Real.sqrt ((distSq mx my s.styleX s.styleY : ℚ) : ℝ) <
          ((cfg.detectionRadius : ℚ) : ℝ)) →
      escapeFrom cfg mx my sq trig tauntOk s = s) := by
  have henc := sqrt_lt_iff_enc (distSq mx my s.styleX s.styleY)
    cfg.detectionRadius (distSq_nonneg _ _ _ _)
  rw [henc]
  by_cases hc : s.isCaught = false
  · by_cases hj : s.isJumping = false
    · by_cases hd : 0 < cfg.detectionRadius ∧
          distSq mx my s.styleX s.styleY <
            cfg.detectionRadius * cfg.detectionRadius
      · obtain ⟨ho, hjj, -, -⟩ :=
          escapeFrom_triggered_obs cfg mx my sq trig tauntOk s hc hj hd
        exact ⟨⟨fun _ => ⟨hc, hj, hd⟩, fun _ => ho⟩, fun _ => hjj,
          fun hn => absurd ⟨hc, hj, hd⟩ hn⟩
      · have heq := escapeFrom_no_trigger cfg mx my sq trig tauntOk s
          (Or.inr (Or.inr hd))
        have hcount : ¬((escapeFrom cfg mx my sq trig tauntOk s).onEscapeCount =
            s.onEscapeCount + 1) := by
          rw [heq]
          exact Ne.symm (Nat.succ_ne_self _)
        exact ⟨⟨fun hh => absurd hh hcount, fun hh => absurd hh.2.2 hd⟩,
          fun hh => absurd hh hcount, fun _ => heq⟩
    · have hj' : s.isJumping = true := by
        cases hb : s.isJumping
        · exact absurd hb hj
        · rfl
      have heq := escapeFrom_no_trigger cfg mx my sq trig tauntOk s
        (Or.inr (Or.inl hj'))
      have hcount : ¬((escapeFrom cfg mx my sq trig tauntOk s).onEscapeCount =
          s.onEscapeCount + 1) := by
        rw [heq]
        exact Ne.symm (Nat.succ_ne_self _)
      exact ⟨⟨fun hh => absurd hh hcount, fun hh => absurd hh.2.1 hj⟩,
        fun hh => absurd hh hcount, fun _ => heq⟩
  · have hc' : s.isCaught = true := by
      cases hb : s.isCaught
      · exact absurd hb hc
      · rfl
    have heq := escapeFrom_no_trigger cfg mx my sq trig tauntOk s (Or.inl hc')
    have hcount : ¬((escapeFrom cfg mx my sq trig tauntOk s).onEscapeCount =
        s.onEscapeCount + 1) := by
      rw [heq]
      exact Ne.symm (Nat.succ_ne_self _)
    exact ⟨⟨fun hh => absurd hh hcount, fun hh => absurd hh.1 hc⟩,
      fun hh => absurd hh hcount, fun _ => heq⟩

/-- Witness for C1 at the spec's example: with `detectionRadius = 140`, a
pointer 50px from the center (offset (30, 40)) triggers an escape, and a
pointer 200px from the center leaves the state untouched. -/
theorem escape_trigger_characterisation_witness :
    (escapeFrom cfg0 (cfg0.startX + 30) (cfg0.startY + 40) 50 trig0 false
        (initState cfg0)).onEscapeCount = (initState cfg0).onEscapeCount + 1 ∧
    escapeFrom cfg0 (cfg0.startX + 200) cfg0.startY 200 trig0 false
        (initState cfg0) = initState cfg0 := by
  constructor
  · apply (escape_trigger_characterisation cfg0 (initState cfg0)
      (cfg0.startX + 30) (cfg0.startY + 40) 50 trig0 false).1.mpr
    refine ⟨rfl, rfl, ?_⟩
    have hd : distSq (cfg0.startX + 30) (cfg0.startY + 40)
        (initState cfg0).styleX (initState cfg0).styleY = 2500 := by
      norm_num [distSq, cfg0, initState]
    rw [hd]
    have h50 : Real.sqrt (((2500 : ℚ) : ℝ)) = 50 := by
      rw [show (((2500 : ℚ)) : ℝ) = (50 : ℝ) ^ 2 by norm_num]
      exact Real.sqrt_sq (by norm_num)
    rw [h50]
    norm_num [cfg0]
  · apply (escape_trigger_characterisation cfg0 (initState cfg0)
      (cfg0.startX + 200) cfg0.startY 200 trig0 false).2.2
    intro hcond
    obtain ⟨-, -, hlt⟩ := hcond
    have hd : distSq (cfg0.startX + 200) cfg0.startY
        (initState cfg0).styleX (initState cfg0).styleY = 40000 := by
      norm_num [distSq, cfg0, initState]
    rw [hd] at hlt
    have h200 : Real.sqrt (((40000 : ℚ) : ℝ)) = 200 := by
      rw [show (((40000 : ℚ)) : ℝ) = (200 : ℝ) ^ 2 by norm_num]
      exact Real.sqrt_sq (by norm_num)
    rw [h200] at hlt
    norm_num [cfg0] at hlt

/-- C2: for every triggered escape, the chosen jump destination - computed
by rotating the negated normalised pointer direction through the fixed
angle list, scaling by `escapeDistance`, clamping each candidate to the
movement envelope and keeping the first displacement-maximising candidate
(all embedded in `escapeDest`/`pickBest`) - lies within the clamp
envelope `|x| ≤ vw/2 - w/2 - edgePadding`,
`-0.55 vh ≤ y ≤ 0.25 vh`, provided the envelope is nonempty (the viewport
fits the element plus padding and has nonnegative height). -/
theorem escape_destination_in_envelope (cfg : Cfg) (s : S) (mx my sq : ℚ)
    (trig : List (ℚ × ℚ)) (tauntOk : Bool)
    (htrig : trig ≠ [])
    (hgx : 0 ≤ cfg.vw / 2 - cfg.btnW / 2 - cfg.edgePadding)
    (hgy : 0 ≤ cfg.vh)
    (hc : s.isCaught = false) (hj : s.isJumping = false)
    (hd : 0 < cfg.detectionRadius ∧
      distSq mx my s.styleX s.styleY <
        cfg.detectionRadius * cfg.detectionRadius) :
    inEnvelope (cfg.vw / 2 - cfg.btnW / 2 - cfg.edgePadding)
      (-cfg.vh * (55 / 100)) (cfg.vh * (25 / 100))
      ((escapeFrom cfg mx my sq trig tauntOk s).jumpTargetX,
       (escapeFrom cfg mx my sq trig tauntOk s).jumpTargetY) := by
  obtain ⟨-, -, hx, hy⟩ :=
    escapeFrom_triggered_obs cfg mx my sq trig tauntOk s hc hj hd
  have hminmax : -cfg.vh * (55 / 100) ≤ cfg.vh * (25 / 100) := by nlinarith
  have henv : inEnvelope (cfg.vw / 2 - cfg.btnW / 2 - cfg.edgePadding)
      (-cfg.vh * (55 / 100)) (cfg.vh * (25 / 100))
      (escapeDest cfg s.styleX s.styleY mx my sq s.currentX s.currentY trig) := by
    simp only [escapeDest]
    apply pickBest_in_envelope
    · intro h
      exact htrig (List.map_eq_nil_iff.mp h)
    · intro c hcand
      obtain ⟨cs, -, rfl⟩ := List.mem_map.mp hcand
      exact candidateAt_in_envelope _ _ _ _ _ _ _ _ cs hgx hminmax
  have hpair : ((escapeFrom cfg mx my sq trig tauntOk s).jumpTargetX,
      (escapeFrom cfg mx my sq trig tauntOk s).jumpTargetY) =
      escapeDest cfg s.styleX s.styleY mx my sq s.currentX s.currentY trig := by
    rw [hx, hy]
  rw [hpair]
  exact henv

/-- Witness for C2 at a concrete triggered escape on the default
geometry. -/
theorem escape_destination_in_envelope_witness :
    inEnvelope (cfg0.vw / 2 - cfg0.btnW / 2 - cfg0.edgePadding)
      (-cfg0.vh * (55 / 100)) (cfg0.vh * (25 / 100))
      ((escapeFrom cfg0 530 440 50 trig0 false (initState cfg0)).jumpTargetX,
       (escapeFrom cfg0 530 440 50 trig0 false (initState cfg0)).jumpTargetY) :=
  escape_destination_in_envelope cfg0 (initState cfg0) 530 440 50 trig0 false
    (by decide) (by norm_num [cfg0]) (by norm_num [cfg0]) rfl rfl
    ⟨by norm_num [cfg0], by norm_num [cfg0, distSq, initState]⟩

/-- C10: when the pointer coincides exactly with the element center (the
radicand of the normalisation square root is 0, so `Math.sqrt` yields 0
and the `|| 1` default makes the divisor exactly 1), the computed
direction is the well-defined value (0, 0) - no division by zero occurs -
the escape still triggers (a jump starts and `onEscape` fires), and the
destination is the clamp of the current offset into the envelope. -/
theorem center_pointer_escape (cfg : Cfg) (s : S) (trig : List (ℚ × ℚ))
    (tauntOk : Bool)
    (hc : s.isCaught = false) (hj : s.isJumping = false)
    (hr : 0 < cfg.detectionRadius) (ht : trig ≠ []) :
    normLen 0 = 1 ∧
    normDir (s.styleX - s.styleX) (s.styleY - s.styleY) 0 = (0, 0) ∧
    (escapeFrom cfg s.styleX s.styleY 0 trig tauntOk s).isJumping = true ∧
    (escapeFrom cfg s.styleX s.styleY 0 trig tauntOk s).onEscapeCount =
      s.onEscapeCount + 1 ∧
    (escapeFrom cfg s.styleX s.styleY 0 trig tauntOk s).jumpTargetX =
      clamp s.currentX (-(cfg.vw / 2 - cfg.btnW / 2 - cfg.edgePadding))
        (cfg.vw / 2 - cfg.btnW / 2 - cfg.edgePadding) ∧
    (escapeFrom cfg s.styleX s.styleY 0 trig tauntOk s).jumpTargetY =
      clamp s.currentY (-cfg.vh * (55 / 100)) (cfg.vh * (25 / 100)) := by
  have hd : 0 < cfg.detectionRadius ∧
      distSq s.styleX s.styleY s.styleX s.styleY <
        cfg.detectionRadius * cfg.detectionRadius := by
    refine ⟨hr, ?_⟩
    have : distSq s.styleX s.styleY s.styleX s.styleY = 0 := by
      simp [distSq]
    rw [this]
    exact mul_pos hr hr
  obtain ⟨ho, hjj, hx, hy⟩ :=
    escapeFrom_triggered_obs cfg s.styleX s.styleY 0 trig tauntOk s hc hj hd
  have hnd : normDir (s.styleX - s.styleX) (s.styleY - s.styleY) 0 =
      ((0 : ℚ), (0 : ℚ)) := by
    simp [normDir, normLen]
  have hdest : escapeDest cfg s.styleX s.styleY s.styleX s.styleY 0
      s.currentX s.currentY trig =
      (clamp s.currentX (-(cfg.vw / 2 - cfg.btnW / 2 - cfg.edgePadding))
        (cfg.vw / 2 - cfg.btnW / 2 - cfg.edgePadding),
       clamp s.currentY (-cfg.vh * (55 / 100)) (cfg.vh * (25 / 100))) := by
    simp only [escapeDest, hnd]
    apply pickBest_const
    · intro h
      exact ht (List.map_eq_nil_iff.mp h)
    · intro x hx2
      obtain ⟨cs, -, rfl⟩ := List.mem_map.mp hx2
      exact candidateAt_zero_dir _ _ _ _ _ _ cs
  refine ⟨rfl, hnd, hjj, ho, ?_, ?_⟩
  · rw [hx, hdest]
  · rw [hy, hdest]

/-- Witness for C10: pointer exactly at the freshly attached element's
center still produces a jump with a well-defined destination. -/
theorem center_pointer_escape_witness :
    normLen 0 = 1 ∧
    (escapeFrom cfg0 (initState cfg0).styleX (initState cfg0).styleY 0 trig0
        false (initState cfg0)).isJumping = true ∧
    (escapeFrom cfg0 (initState cfg0).styleX (initState cfg0).styleY 0 trig0
        false (initState cfg0)).onEscapeCount =
      (initState cfg0).onEscapeCount + 1 := by
  obtain ⟨h1, -, h3, h4, -, -⟩ :=
    center_pointer_escape cfg0 (initState cfg0) trig0 false rfl rfl
      (by norm_num [cfg0]) (by decide)
  exact ⟨h1, h3, h4⟩

/-- Counterexample to C3 as stated: from the attached state, an escape
starts a jump; two animation frames later the jump is still in flight
(`z > 0`), the pointer leaves the document scheduling the 200ms return
timer, and when that timer fires `returnToCenter` sets `isReturning`
without checking `isJumping` - reaching a state with both flags true.
(The jump lasts about 530ms, so the 200ms timer firing mid-jump is the
real-time behaviour, not an artifact of event ordering.) -/
theorem jump_return_overlap_ce :
    (run cfg0 (initState cfg0)
      [Ev.mouseMove 510 400 10 trig0 false, Ev.jumpFrame 1000 280,
       Ev.jumpFrame 1016 280, Ev.mouseLeave, Ev.fireReturn]).isJumping = true ∧
    (run cfg0 (initState cfg0)
      [Ev.mouseMove 510 400 10 trig0 false, Ev.jumpFrame 1000 280,
       Ev.jumpFrame 1016 280, Ev.mouseLeave, Ev.fireReturn]).isReturning = true := by
  set_option maxRecDepth 8000 in
  norm_num [run, List.foldl_cons, List.foldl_nil, step, handleMouseMove,
    escapeFrom, getButtonCenter, distSq, handleMouseLeave, returnToCenter,
    startJump, showTaunt, jumpAnimate, min_def, cfg0, initState, GRAVITY,
    JUMP_VELOCITY]

/-- C3 (amended): `isJumping` and `isReturning` are never both true in any
state reachable by pointer-move, pointer-leave, click, animation-frame and
timer events, provided no `returnToCenter`-invoking timer (the stored
return timer or the anonymous 600ms post-catch timer) fires while a jump
is in flight; if such a timer does fire mid-jump, `returnToCenter` sets
`isReturning` while `isJumping` still holds (see the counterexample). -/
theorem jump_return_mutex (cfg : Cfg) (evs : List Ev)
    (hok : firesOkFrom cfg (initState cfg) evs = true) :
    (run cfg (initState cfg) evs).isJumping = false ∨
      (run cfg (initState cfg) evs).isReturning = false :=
  run_mutex cfg evs (initState cfg) (Or.inl rfl) hok

/-- Witness for the amended C3 on a concrete restricted trace. -/
theorem jump_return_mutex_witness :
    firesOkFrom cfg0 (initState cfg0) [Ev.mouseLeave, Ev.fireReturn] = true ∧
    ((run cfg0 (initState cfg0) [Ev.mouseLeave, Ev.fireReturn]).isJumping = false ∨
      (run cfg0 (initState cfg0) [Ev.mouseLeave, Ev.fireReturn]).isReturning = false) :=
  ⟨by decide, jump_return_mutex cfg0 [Ev.mouseLeave, Ev.fireReturn] (by decide)⟩

/-- Counterexample to C4 as stated: a click schedules the anonymous 600ms
timer; `destroy` does not hold a handle to it, so after teardown the timer
is still outstanding and firing it runs `returnToCenter` - a controller
callback executing after detach, visibly flipping `isReturning`. -/
theorem destroy_anon_timer_ce :
    (run cfg0 (initState cfg0) [Ev.click, Ev.destroy]).destroyed = true ∧
    0 < (run cfg0 (initState cfg0) [Ev.click, Ev.destroy]).anonReturn600 ∧
    (run cfg0 (initState cfg0) [Ev.click, Ev.destroy]).isReturning = false ∧
    (step cfg0 (run cfg0 (initState cfg0) [Ev.click, Ev.destroy])
      Ev.fireAnonReturn).isReturning = true := by
  decide

/-- C4 (amended): the teardown function cancels the four stored handles
(`animationFrame`, `jumpAnimFrame`, `returnTimeout`, `tauntTimeout`) with
cancel-if-present semantics - after `destroy`, none of their continuations
is pending, in every reachable state - and calling `destroy` again is a
no-op (idempotent, hence safe).  The anonymous timers scheduled by
`handleClick` (600ms return and `caughtDuration` restore) and the 200ms
landing visuals are not stored anywhere and survive teardown (see the
counterexample). -/
theorem destroy_cancels_stored_idem (cfg : Cfg) (evs : List Ev) :
    ((step cfg (run cfg (initState cfg) evs) Ev.destroy).animFramePending = false ∧
     (step cfg (run cfg (initState cfg) evs) Ev.destroy).jumpFramePending = false ∧
     (step cfg (run cfg (initState cfg) evs) Ev.destroy).returnTimeoutPending = false ∧
     (step cfg (run cfg (initState cfg) evs) Ev.destroy).tauntTimeoutPending = false) ∧
    step cfg (step cfg (run cfg (initState cfg) evs) Ev.destroy) Ev.destroy =
      step cfg (run cfg (initState cfg) evs) Ev.destroy := by
  have hinv := run_handleInv cfg evs (initState cfg) (initState_handleInv cfg)
  exact ⟨destroyFn_cancels _ hinv, destroyFn_idem _⟩

/-- C5: a click while not caught immediately sets `isCaught`, invokes
`onCatch` exactly once, cancels the in-flight jump and return animations
and the return timer, and swaps the element content to `caughtText`; a
second click during the caught window is a complete no-op; and when the
`caughtDuration` timer fires, the original content is restored and
`isCaught` cleared without invoking `onCatch` again. -/
theorem click_catch_cycle (cfg : Cfg) (s : S)
    (hc : s.isCaught = false) (hd : s.destroyed = false) :
    (step cfg s Ev.click).isCaught = true ∧
    (step cfg s Ev.click).onCatchCount = s.onCatchCount + 1 ∧
    (step cfg s Ev.click).contentCaught = true ∧
    (step cfg s Ev.click).jumpFramePending = false ∧
    (step cfg s Ev.click).animFramePending = false ∧
    (step cfg s Ev.click).returnTimeoutPending = false ∧
    (step cfg s Ev.click).isJumping = false ∧
    step cfg (step cfg s Ev.click) Ev.click = step cfg s Ev.click ∧
    (step cfg (step cfg s Ev.click) Ev.fireAnonRestore).contentCaught = false ∧
    (step cfg (step cfg s Ev.click) Ev.fireAnonRestore).isCaught = false ∧
    (step cfg (step cfg s Ev.click) Ev.fireAnonRestore).onCatchCount =
      (step cfg s Ev.click).onCatchCount := by
  have h1 : step cfg s Ev.click = handleClick s := by
    show (if s.destroyed then s else handleClick s) = handleClick s
    rw [if_neg (by simp [hd])]
  have h2 : handleClick s = { s with
      isCaught := true, onCatchCount := s.onCatchCount + 1,
      jumpFrameVar := false, jumpFramePending := false,
      animFrameVar := false, animFramePending := false,
      returnTimeoutVar := false, returnTimeoutPending := false,
      z := 0, zVelocity := 0, isJumping := false,
      contentCaught := true,
      anonReturn600 := s.anonReturn600 + 1,
      anonRestore := s.anonRestore + 1 } := by
    unfold handleClick
    rw [if_neg (by simp [hc])]
  rw [h1, h2]
  refine ⟨rfl, rfl, rfl, rfl, rfl, rfl, rfl, ?_, ?_, ?_, ?_⟩
  · simp only [step, handleClick]
    split
    · rfl
    · split
      · rfl
      · next hno => exact absurd trivial hno
  · simp only [step]
    split
    · rfl
    · next hno => exact absurd (Nat.succ_pos _) hno
  · simp only [step]
    split
    · rfl
    · next hno => exact absurd (Nat.succ_pos _) hno
  · simp only [step]
    split
    · rfl
    · next hno => exact absurd (Nat.succ_pos _) hno

/-- Witness for C5 on the freshly attached state. -/
theorem click_catch_cycle_witness :
    (initState cfg0).isCaught = false ∧
    (step cfg0 (initState cfg0) Ev.click).isCaught = true ∧
    (step cfg0 (initState cfg0) Ev.click).contentCaught = true ∧
    step cfg0 (step cfg0 (initState cfg0) Ev.click) Ev.click =
      step cfg0 (initState cfg0) Ev.click ∧
    (step cfg0 (step cfg0 (initState cfg0) Ev.click)
      Ev.fireAnonRestore).isCaught = false := by
  obtain ⟨h1, -, h3, -, -, -, -, h8, -, h10, -⟩ :=
    click_catch_cycle cfg0 (initState cfg0) rfl rfl
  exact ⟨rfl, h1, h3, h8, h10⟩

/-- Counterexample to C6 as stated: at remaining distance 10 (which
exceeds 1 unit), the claim prescribes a step of exactly
`max(15, 10 x 0.18) = 15`, but the code's step is
`max(10 x 0.18, min(15, 10)) = 10` - it moves the full remaining distance
(landing on the target) instead of overshooting by 5. -/
theorem jump_step_overshoot_ce :
    (1 : ℚ) < 10 ∧
    (10 : ℚ) * 10 = (10 - 0) ^ 2 + (0 - 0) ^ 2 ∧
    jumpHoriz 0 0 10 0 10 = (10, 0) ∧
    distSq 0 0 (jumpHoriz 0 0 10 0 10).1 (jumpHoriz 0 0 10 0 10).2 ≠
      max 15 (10 * HORIZONTAL_LERP) * max 15 (10 * HORIZONTAL_LERP) := by
  refine ⟨by norm_num, by norm_num, ?_, ?_⟩
  · norm_num [jumpHoriz, HORIZONTAL_LERP, min_def, max_def]
  · norm_num [jumpHoriz, distSq, HORIZONTAL_LERP, min_def, max_def]

/-- C6 (amended): during a jump, on every frame where the remaining
distance `d` to the jump target exceeds 1 unit, the position moves toward
the target by exactly `max(d x 0.18, min(15, d))` - that is, by
`max(15, d x 0.18)` but never more than the remaining distance; when the
remaining distance is within 1 unit, the position snaps exactly to the
jump target.  (`d` parameterises the square root of the squared remaining
distance, as used by `jumpAnimate`.) -/
theorem jump_step_amended (cx cy tx ty d : ℚ)
    (hd : d * d = (tx - cx) ^ 2 + (ty - cy) ^ 2) (_hdnn : 0 ≤ d) :
    (1 < d →
      jumpHoriz cx cy tx ty d =
        (cx + (tx - cx) * (max (d * HORIZONTAL_LERP) (min 15 d) / d),
         cy + (ty - cy) * (max (d * HORIZONTAL_LERP) (min 15 d) / d)) ∧
      distSq cx cy (jumpHoriz cx cy tx ty d).1 (jumpHoriz cx cy tx ty d).2 =
        max (d * HORIZONTAL_LERP) (min 15 d) ^ 2) ∧
    (d ≤ 1 → jumpHoriz cx cy tx ty d = (tx, ty)) := by
  constructor
  · intro h1
    have hne : d ≠ 0 := by linarith
    have hj : jumpHoriz cx cy tx ty d =
        (cx + (tx - cx) * (max (d * HORIZONTAL_LERP) (min 15 d) / d),
         cy + (ty - cy) * (max (d * HORIZONTAL_LERP) (min 15 d) / d)) := by
      simp only [jumpHoriz]
      rw [if_pos h1]
    refine ⟨hj, ?_⟩
    rw [hj]
    have key : (tx - cx) ^ 2 + (ty - cy) ^ 2 = d ^ 2 := by
      rw [← hd]
      ring
    unfold distSq
    field_simp
    linear_combination max (d * HORIZONTAL_LERP) (min 15 d) ^ 2 * key
  · intro h2
    simp only [jumpHoriz]
    rw [if_neg (not_lt.mpr h2)]

/-- Witness for the amended C6 at distance 50 toward offset (30, 40): the
step length is `max(50 x 0.18, min(15, 50)) = 15`. -/
theorem jump_step_amended_witness :
    (50 : ℚ) * 50 = (30 - 0) ^ 2 + (40 - 0) ^ 2 ∧
    distSq 0 0 (jumpHoriz 0 0 30 40 50).1 (jumpHoriz 0 0 30 40 50).2 =
      max (50 * HORIZONTAL_LERP) (min 15 50) ^ 2 := by
  have h := jump_step_amended 0 0 30 40 50 (by norm_num) (by norm_num)
  exact ⟨by norm_num, (h.1 (by norm_num)).2⟩

/-- C7: for every starting offset and velocity, the spring-return
iteration (velocity += displacement x 120/1000; velocity x= 1 - 28/100;
position += velocity) reaches its termination condition - post-update
speed below 0.1 and pre-update distance below 0.5 - within finitely many
frames (by the exact Lyapunov contraction `springEtot_core_contract`),
and on the frame where the condition holds `springAnimate` sets the
position exactly to the anchor target (0, 0) with zero velocity and ends
the return. -/
theorem spring_return_terminates :
    (∀ p : SpringV, ∃ n, springDone 0 0 (springIter 0 0 n p)) ∧
    (∀ (cfg : Cfg) (s : S), s.isReturning = true → s.targetX = 0 →
      s.targetY = 0 →
      springDone 0 0 ⟨s.currentX, s.currentY, s.velocityX, s.velocityY⟩ →
      (springAnimate cfg s).currentX = 0 ∧ (springAnimate cfg s).currentY = 0 ∧
      (springAnimate cfg s).velocityX = 0 ∧ (springAnimate cfg s).velocityY = 0 ∧
      (springAnimate cfg s).isReturning = false) := by
  constructor
  · exact spring_reaches_done
  · intro cfg s hret htx hty hdone
    obtain ⟨hd1, hd2⟩ := hdone
    simp only [springAnimate]
    rw [htx, hty]
    rw [if_pos ⟨hret, hd1, hd2⟩]
    exact ⟨rfl, rfl, rfl, rfl, rfl⟩

/-- Witness for C7: termination from offset (3, 4), and exact snapping of
a nearly-settled return frame. -/
theorem spring_return_terminates_witness :
    (∃ n, springDone 0 0 (springIter 0 0 n ⟨3, 4, 0, 0⟩)) ∧
    ((springAnimate cfg0 { initState cfg0 with
        isReturning := true, currentX := 1/10 }).currentX = 0 ∧
     (springAnimate cfg0 { initState cfg0 with
        isReturning := true, currentX := 1/10 }).velocityX = 0 ∧
     (springAnimate cfg0 { initState cfg0 with
        isReturning := true, currentX := 1/10 }).isReturning = false) := by
  constructor
  · exact spring_return_terminates.1 ⟨3, 4, 0, 0⟩
  · have h := spring_return_terminates.2 cfg0
      { initState cfg0 with isReturning := true, currentX := 1/10 }
      rfl rfl rfl
      (by
        constructor
        · norm_num [springCore, SPRING_TENSION, SPRING_FRICTION, initState]
        · norm_num [initState])
    exact ⟨h.1, h.2.2.1, h.2.2.2.2⟩

/-- C8: for every sequence of `getNextTaunt` draws from the attach-time
state, when the taunt list has more than one element, two consecutive
draws never return the same taunt index (the queue regenerates and
reshuffles when empty, and a head equal to the previously shown index is
swapped with the first subsequent non-matching entry before consuming). -/
theorem taunt_no_consecutive_repeat (n : ℕ) (hn : 1 < n) (tape0 : List ℚ)
    (tapes : List (List ℚ)) :
    List.Chain' (fun a b => a ≠ b) (runTaunts n tapes (initTaunt n tape0)) := by
  have hinv : TInv (initTaunt n tape0) := by
    constructor
    · exact (shuffleTauntQueue_perm (List.range n) tape0).symm.nodup
        (List.nodup_range n)
    · intro x _
      show ((x : ℕ) : Int) ≠ (-1 : Int)
      omega
  exact (runTaunts_chain n hn tapes _ hinv).1

/-- Witness for C8 with two taunts over three draws (spanning a queue
regeneration). -/
theorem taunt_no_consecutive_repeat_witness :
    List.Chain' (fun a b => a ≠ b) (runTaunts 2 [[], [], []] (initTaunt 2 [])) :=
  taunt_no_consecutive_repeat 2 (by norm_num) [] [[], [], []]

/-- Counterexample to C9 as stated: with N = 3 taunts, six consecutive
draws can produce `[0, 1, 2, 1, 0, 2]` (first permutation `[0, 1, 2]`
exhausted, then a regeneration shuffles to `[1, 0, 2]`), and the window of
3 consecutive draws starting at the second draw is `[1, 2, 1]` - index 1
appears twice within a window of N.  The anti-repeat swap only prevents
immediate repetition across the regeneration boundary. -/
theorem taunt_window_repeat_ce :
    runTaunts 3 [[], [], [], [2/3, 0], [], []] (initTaunt 3 []) =
      [0, 1, 2, 1, 0, 2] ∧
    ¬ (List.take 3 (List.drop 1 (runTaunts 3 [[], [], [], [2/3, 0], [], []]
        (initTaunt 3 [])))).Nodup := by
  have hf1 : Int.toNat ⌊(2/3 : ℚ) * (((1 : ℕ) : ℚ) + 2)⌋ = 2 := by
    norm_num
    decide
  have hf2 : Int.toNat ⌊(0 : ℚ) * (((0 : ℕ) : ℚ) + 2)⌋ = 0 := by
    norm_num
  have hs : shuffleTauntQueue (List.range 3) [2/3, 0] = [1, 0, 2] := by
    have h3 : List.range 3 = [0, 1, 2] := by decide
    unfold shuffleTauntQueue
    rw [h3]
    show shuffleAux [0, 1, 2] [2/3, 0] 2 = [1, 0, 2]
    rw [shuffleAux, hf1, show swapIdx [0, 1, 2] 2 2 = [0, 1, 2] from by decide,
      shuffleAux, hf2, show swapIdx [0, 1, 2] 1 0 = [1, 0, 2] from by decide,
      shuffleAux]
  have hr : regenQueue 3 [2/3, 0] (⟨[], 2⟩ : TauntS) = [1, 0, 2] := by
    have h0 : regenQueue 3 [2/3, 0] (⟨[], 2⟩ : TauntS) =
        shuffleTauntQueue (List.range 3) [2/3, 0] := rfl
    rw [h0, hs]
  have d4 : getNextTaunt 3 [2/3, 0] (⟨[], 2⟩ : TauntS) = (1, ⟨[0, 2], 1⟩) := by
    unfold getNextTaunt
    rw [hr]
    decide
  have d1 : getNextTaunt 3 [] (initTaunt 3 []) = (0, ⟨[1, 2], 0⟩) := by decide
  have d2 : getNextTaunt 3 [] (⟨[1, 2], 0⟩ : TauntS) = (1, ⟨[2], 1⟩) := by decide
  have d3 : getNextTaunt 3 [] (⟨[2], 1⟩ : TauntS) = (2, ⟨[], 2⟩) := by decide
  have d5 : getNextTaunt 3 [] (⟨[0, 2], 1⟩ : TauntS) = (0, ⟨[2], 0⟩) := by decide
  have d6 : getNextTaunt 3 [] (⟨[2], 0⟩ : TauntS) = (2, ⟨[], 2⟩) := by decide
  have hrun : runTaunts 3 [[], [], [], [2/3, 0], [], []] (initTaunt 3 []) =
      [0, 1, 2, 1, 0, 2] := by
    simp only [runTaunts, d1, d2, d3, d4, d5, d6]
  refine ⟨hrun, ?_⟩
  rw [hrun]
  decide

/-- C9 (amended): across draws, no taunt index appears twice within any
window of N consecutive draws that is aligned with a queue lifetime: a
block of N draws starting at a regeneration consumes a permutation of all
N indices (hence is duplicate-free), and more generally drawing exactly as
many times as the queue holds consumes a permutation of the stored queue.
A window of N draws straddling a regeneration boundary may repeat an index
(see the counterexample); only immediate repetition is prevented there. -/
theorem taunt_block_permutation (n : ℕ) (hn : 0 < n) :
    (∀ (tape : List ℚ) (tapes : List (List ℚ)) (s : TauntS),
      s.queue = [] → tapes.length = n - 1 →
        (runTaunts n (tape :: tapes) s).Perm (List.range n) ∧
        (runTaunts n (tape :: tapes) s).Nodup) ∧
    (∀ (tapes : List (List ℚ)) (s : TauntS), tapes.length = s.queue.length →
      (runTaunts n tapes s).Perm s.queue) := by
  constructor
  · intro tape tapes s h0 hlen
    have hperm := runTaunts_regen_perm n hn tape tapes s h0 hlen
    exact ⟨hperm, hperm.symm.nodup (List.nodup_range n)⟩
  · intro tapes s hlen
    exact runTaunts_block_perm n tapes s hlen

/-- Witness for the amended C9: a regeneration block with two taunts, and
a full-queue block from the attach-time queue. -/
theorem taunt_block_permutation_witness :
    (runTaunts 2 [[], []] (⟨[], 5⟩ : TauntS)).Perm (List.range 2) ∧
    (runTaunts 2 [[], []] (⟨[0, 1], -1⟩ : TauntS)).Perm ([0, 1] : List ℕ) := by
  constructor
  · exact ((taunt_block_permutation 2 (by norm_num)).1 [] [[]] ⟨[], 5⟩ rfl rfl).1
  · exact (taunt_block_permutation 2 (by norm_num)).2 [[], []] ⟨[0, 1], -1⟩ rfl

end Evasive
